import Mathlib

/-!
Shallow embedding of the reconciliation core of the `footballapi` repository
(`src/footballapi/normalize.py` and `src/footballapi/service.py`).

Modelling conventions:
* Python dict match rows become the `Row` structure; a missing/`None` entry is
  `Option.none`.
* Python floats are modelled as `ℚ`.
* Python standard-library components that the repository merely calls are taken
  as explicit function parameters:
  - `preprocess : String → String` models the composition
    `unicodedata.normalize("NFKD", ·)` + dropping combining characters +
    `str.lower` (normalize.py lines 75-77);
  - `ratioFn : String → String → ℚ` models
    `difflib.SequenceMatcher(None, a, b).ratio()` (normalize.py line 92);
  - `parseIso : Option String → Option ℚ` models `parse_iso_utc`
    (normalize.py lines 33-47), mapping a timestamp string to a point on the
    UTC time line measured in seconds; `none` covers both a missing value and
    an unparsable string, exactly the two cases in which `parse_iso_utc`
    returns `None`.
  All repository-level logic built on top of these is embedded concretely.
-/

/-- Team stop words, normalize.py lines 8-26. -/
def TEAM_STOP_WORDS : List String :=
  ["ac", "afc", "athletic", "atletico", "cf", "club", "fc", "fk", "foot",
   "football", "if", "nk", "rc", "sc", "sk", "sporting", "sv"]

/-- Characters kept by the regular expression `[^a-z0-9 ]+` of
normalize.py line 78: lowercase ASCII letters, ASCII digits and the space. -/
def isKeptChar (c : Char) : Bool :=
  (decide ('a' ≤ c) && decide (c ≤ 'z')) ||
  (decide ('0' ≤ c) && decide (c ≤ '9')) ||
  (c == ' ')

/-- Model of `re.sub(r"[^a-z0-9 ]+", " ", text)` (normalize.py line 78):
every maximal run of characters outside `[a-z0-9 ]` is replaced by a single
space. -/
def squashNonKept : List Char → List Char
  | [] => []
  | c :: rest =>
    if isKeptChar c then c :: squashNonKept rest
    else ' ' :: squashNonKept (rest.dropWhile fun d => !isKeptChar d)
termination_by l => l.length
decreasing_by
  · simp_wf
  · simp_wf
    have h : ∀ (l : List Char), (l.dropWhile (fun d => !isKeptChar d)).length ≤ l.length := by
      intro l
      induction l with
      | nil => simp [List.dropWhile]
      | cons a l ih =>
        simp only [List.dropWhile]
        split
        · exact Nat.le_succ_of_le ih
        · exact Nat.le_refl _
    have h2 := h rest
    omega

/-- Model of Python `str.split()` (normalize.py line 79) on the output of
`squashNonKept`: split on runs of spaces, dropping empty pieces.  (After the
regex substitution the only whitespace character that can occur is the plain
space, so splitting on spaces is exactly `str.split()` there.) -/
def splitTokens : List Char → List (List Char)
  | [] => []
  | c :: rest =>
    if c == ' ' then splitTokens rest
    else (c :: rest.takeWhile fun d => d != ' ') ::
      splitTokens (rest.dropWhile fun d => d != ' ')
termination_by l => l.length
decreasing_by
  · simp_wf
  · simp_wf
    have h : ∀ (l : List Char), (l.dropWhile (fun d => d != ' ')).length ≤ l.length := by
      intro l
      induction l with
      | nil => simp [List.dropWhile]
      | cons a l ih =>
        simp only [List.dropWhile]
        split
        · exact Nat.le_succ_of_le ih
        · exact Nat.le_refl _
    have h2 := h rest
    omega

/-- Join token lists with single spaces; model of `" ".join(parts)`
(normalize.py line 82) at the character-list level. -/
def joinTokens : List (List Char) → List Char
  | [] => []
  | [t] => t
  | t :: rest => t ++ ' ' :: joinTokens rest

/-- Embeds `normalize_team_name`, normalize.py lines 72-82.  `preprocess` models the
NFKD decomposition, combining-character removal and lowercasing of lines
75-77; everything after that is embedded concretely. -/
def normalize_team_name (preprocess : String → String) (name : Option String) :
    String :=
  match name with
  | none => ""
  | some n =>
    if n = "" then ""
    else
      let text := preprocess n
      let toks := splitTokens (squashNonKept text.data)
      let parts := toks.filter fun t =>
        !t.isEmpty && !(TEAM_STOP_WORDS.map String.data).contains t
      if parts = [] then "" else String.mk (joinTokens parts)

/-- Embeds `similarity`, normalize.py lines 85-92; `ratioFn` models
`SequenceMatcher(None, left_norm, right_norm).ratio()`. -/
def similarity (preprocess : String → String) (ratioFn : String → String → ℚ)
    (left right : Option String) : ℚ :=
  let left_norm := normalize_team_name preprocess left
  let right_norm := normalize_team_name preprocess right
  if left_norm = "" ∧ right_norm = "" then 1
  else if left_norm = "" ∨ right_norm = "" then 0
  else ratioFn left_norm right_norm

/-- Embeds `team_pair_similarity`, normalize.py lines 95-105. -/
def team_pair_similarity (preprocess : String → String)
    (ratioFn : String → String → ℚ)
    (home_a away_a home_b away_b : String) : ℚ × Bool :=
  let direct := (similarity preprocess ratioFn (some home_a) (some home_b) +
    similarity preprocess ratioFn (some away_a) (some away_b)) / 2
  let swapped := (similarity preprocess ratioFn (some home_a) (some away_b) +
    similarity preprocess ratioFn (some away_a) (some home_b)) / 2
  if swapped ≤ direct then (direct, false) else (swapped, true)

/-- Embeds `minutes_between`, normalize.py lines 108-113. -/
def minutes_between (parseIso : Option String → Option ℚ)
    (left_iso right_iso : Option String) : Option ℚ :=
  match parseIso left_iso, parseIso right_iso with
  | some left, some right => some (|left - right| / 60)
  | _, _ => none

/-- One canonical/raw match row.  Models the Python dict rows: every key that
the reconciliation core ever reads or writes is a field; a key that is missing
or `None` in Python is `none` here.  The three quality-gate annotations
(`last_update_age_seconds`, `is_stale`, `staleness_reason`) are only written
by the quality gate. -/
structure Row where
  home_team : Option String := none
  away_team : Option String := none
  home_score : Option Int := none
  away_score : Option Int := none
  status : Option String := none
  competition : Option String := none
  venue : Option String := none
  start_time_utc : Option String := none
  last_updated_utc : Option String := none
  provider_match_id : Option String := none
  streamed_watch_url : Option String := none
  sources : List String := []
  confidence : ℚ := 0
  verification : String := ""
  external_ids : List (String × Option String) := []
  discrepancies : List String := []
  last_update_age_seconds : Option ℚ := none
  is_stale : Bool := false
  staleness_reason : Option String := none
deriving DecidableEq, Inhabited

/-- Embeds `STATUS_PRIORITY.get(s, 0)`, service.py lines 19-26 together with the
`.get(..., 0)` default used at lines 48-49 and 250. -/
def statusPriority (s : String) : Nat :=
  if s = "live" then 5
  else if s = "finished" then 4
  else if s = "postponed" then 3
  else if s = "cancelled" then 2
  else if s = "scheduled" then 1
  else 0

/-- Embeds `_preferred_status`, service.py lines 47-52. -/
def _preferred_status (first second : String) : String :=
  if statusPriority first < statusPriority second then second else first

/-- Embeds `_score_pair`, service.py lines 55-56. -/
def _score_pair (row : Row) : Option Int × Option Int :=
  (row.home_score, row.away_score)

/-- Model of `None not in (home, away)` for a score pair. -/
def bothKnown (p : Option Int × Option Int) : Bool :=
  p.1.isSome && p.2.isSome

/-- Python truthiness test for an optional string: `None` and `""` are falsy. -/
def strFalsy (s : Option String) : Bool :=
  match s with
  | none => true
  | some t => t = ""

/-- Model of Python `str.lower()`: lowercase character by character. -/
def pyLower (s : String) : String :=
  String.mk (s.data.map Char.toLower)

/-- Model of `str(x or "unknown")` for an optional string `x`. -/
def orUnknown (s : Option String) : String :=
  match s with
  | none => "unknown"
  | some t => if t = "" then "unknown" else t

/-- Model of `str(x or "")` for an optional string `x`. -/
def orEmpty (s : Option String) : String :=
  match s with
  | none => ""
  | some t => t

/-- Python f-string rendering of an optional int (`None` prints as "None"). -/
def showOptInt (v : Option Int) : String :=
  match v with
  | none => "None"
  | some n => toString n

/-- Embeds `_max_timestamp`, service.py lines 59-66. -/
def _max_timestamp (parseIso : Option String → Option ℚ)
    (left right : Option String) : Option String :=
  match parseIso left with
  | none => right
  | some left_dt =>
    match parseIso right with
    | none => left
    | some right_dt => if right_dt ≤ left_dt then left else right

/-- Python dict `m[k] = v`: overwrite in place if the key exists (preserving
insertion order), otherwise append. -/
def dictInsert (m : List (String × Option String)) (k : String)
    (v : Option String) : List (String × Option String) :=
  if (m.map Prod.fst).contains k then
    m.map fun kv => if kv.1 = k then (k, v) else kv
  else m ++ [(k, v)]

/-- Embeds `MatchLink`, service.py lines 29-34. -/
structure MatchLink where
  base_index : Nat
  candidate_index : Nat
  similarity : ℚ
  swapped : Bool
deriving DecidableEq, Inhabited

/-- The per-candidate time-gap filter and scoring of `_match_records`
(service.py lines 83-97): `none` means the candidate is skipped because the
two start times are both parseable and more than `max_minutes_diff` apart;
otherwise the team-pair similarity, plus the time-proximity bonus when both
timestamps parse, together with the swapped flag. -/
def candidateScore (preprocess : String → String)
    (ratioFn : String → String → ℚ) (parseIso : Option String → Option ℚ)
    (base candidate : Row) (max_minutes_diff : ℚ) : Option (ℚ × Bool) :=
  let minute_gap := minutes_between parseIso base.start_time_utc
    candidate.start_time_utc
  match minute_gap with
  | some gap =>
    if max_minutes_diff < gap then none
    else
      let sim := team_pair_similarity preprocess ratioFn
        (orEmpty base.home_team) (orEmpty base.away_team)
        (orEmpty candidate.home_team) (orEmpty candidate.away_team)
      some (sim.1 + max 0 (1 - gap / max_minutes_diff) * (1 / 10), sim.2)
  | none =>
    let sim := team_pair_similarity preprocess ratioFn
      (orEmpty base.home_team) (orEmpty base.away_team)
      (orEmpty candidate.home_team) (orEmpty candidate.away_team)
    some (sim.1, sim.2)

/-- The inner candidate scan of `_match_records` (service.py lines 79-104):
walk the candidate list, indices starting at `ci`, skipping used candidates,
keeping the best-scoring link seen so far (strictly better replaces). -/
def scanCandidates (preprocess : String → String)
    (ratioFn : String → String → ℚ) (parseIso : Option String → Option ℚ)
    (base : Row) (base_index : Nat) (used : List Nat) (max_minutes_diff : ℚ) :
    List Row → Nat → Option MatchLink → Option MatchLink
  | [], _, best => best
  | candidate :: rest, ci, best =>
    if used.contains ci then
      scanCandidates preprocess ratioFn parseIso base base_index used
        max_minutes_diff rest (ci + 1) best
    else
      match candidateScore preprocess ratioFn parseIso base candidate
          max_minutes_diff with
      | none =>
        scanCandidates preprocess ratioFn parseIso base base_index used
          max_minutes_diff rest (ci + 1) best
      | some (s, sw) =>
        let best' :=
          match best with
          | none => some (MatchLink.mk base_index ci s sw)
          | some b =>
            if b.similarity < s then some (MatchLink.mk base_index ci s sw)
            else some b
        scanCandidates preprocess ratioFn parseIso base base_index used
          max_minutes_diff rest (ci + 1) best'

/-- The outer loop of `_match_records` (service.py lines 78-110): one scan per
base row; accept the best candidate only when its score reaches
`min_similarity`, and mark accepted candidate indices used. -/
def matchRecordsAux (preprocess : String → String)
    (ratioFn : String → String → ℚ) (parseIso : Option String → Option ℚ)
    (candidate_rows : List Row) (max_minutes_diff min_similarity : ℚ) :
    List Row → Nat → List Nat → List MatchLink
  | [], _, _ => []
  | base :: rest, base_index, used =>
    match scanCandidates preprocess ratioFn parseIso base base_index used
        max_minutes_diff candidate_rows 0 none with
    | none =>
      matchRecordsAux preprocess ratioFn parseIso candidate_rows
        max_minutes_diff min_similarity rest (base_index + 1) used
    | some best =>
      if best.similarity < min_similarity then
        matchRecordsAux preprocess ratioFn parseIso candidate_rows
          max_minutes_diff min_similarity rest (base_index + 1) used
      else
        best :: matchRecordsAux preprocess ratioFn parseIso candidate_rows
          max_minutes_diff min_similarity rest (base_index + 1)
          (best.candidate_index :: used)

/-- Embeds `_match_records`, service.py lines 69-110. -/
def _match_records (preprocess : String → String)
    (ratioFn : String → String → ℚ) (parseIso : Option String → Option ℚ)
    (base_rows candidate_rows : List Row)
    (max_minutes_diff : ℚ := 180) (min_similarity : ℚ := 74 / 100) :
    List MatchLink :=
  matchRecordsAux preprocess ratioFn parseIso candidate_rows max_minutes_diff
    min_similarity base_rows 0 []

/-- The seeding pattern of `merge_provider_matches`: `copy.deepcopy(row)`
followed by setting `sources`, `confidence`, `verification` and
`external_ids` (service.py lines 121-127 for goal with confidence 0.72,
lines 174-182 for espn with 0.68, lines 227-235 for sofascore with 0.74). -/
def seedRow (source : String) (conf : ℚ) (row : Row) : Row :=
  { row with
    sources := [source]
    confidence := conf
    verification := "single_source"
    external_ids := [(source, row.provider_match_id)] }

/-- Model of `round(x, 2)`: round to two decimal places. -/
def round2 (q : ℚ) : ℚ := (round (100 * q) : ℤ) / 100

/-- The per-link update of the goal/espn merge stage, service.py lines
131-172 (everything done to `goal_row` for one accepted link). -/
def applyEspnLink (parseIso : Option String → Option ℚ) (link : MatchLink)
    (goal_row espn_row : Row) : Row :=
  let r0 : Row :=
    { goal_row with
      sources := goal_row.sources ++ ["espn"]
      external_ids := dictInsert goal_row.external_ids "espn"
        espn_row.provider_match_id
      confidence := round2 (min (98 / 100)
        (80 / 100 + (link.similarity - 75 / 100)))
      status := some (_preferred_status (orUnknown goal_row.status)
        (orUnknown espn_row.status))
      last_updated_utc := _max_timestamp parseIso goal_row.last_updated_utc
        espn_row.last_updated_utc }
  let goal_scores := _score_pair r0
  let espn_scores := _score_pair espn_row
  let r1 : Row :=
    if goal_scores = espn_scores ∧ bothKnown goal_scores then
      { r0 with
        verification := "confirmed_by_multiple_sources"
        confidence := max r0.confidence (95 / 100) }
    else if bothKnown goal_scores ∧ bothKnown espn_scores ∧
        goal_scores ≠ espn_scores then
      { r0 with
        verification := "score_conflict"
        confidence := min r0.confidence (56 / 100)
        discrepancies := r0.discrepancies ++
          ["Goal score " ++ showOptInt goal_scores.1 ++ "-" ++
            showOptInt goal_scores.2 ++ " differs from ESPN " ++
            showOptInt espn_scores.1 ++ "-" ++ showOptInt espn_scores.2] }
    else if ¬bothKnown goal_scores ∧ bothKnown espn_scores then
      { r0 with
        home_score := espn_row.home_score
        away_score := espn_row.away_score
        verification := "filled_from_espn"
        confidence := max r0.confidence (83 / 100) }
    else r0
  let r2 : Row :=
    if strFalsy r1.competition ∧ ¬strFalsy espn_row.competition then
      { r1 with competition := espn_row.competition }
    else r1
  if strFalsy r2.venue ∧ ¬strFalsy espn_row.venue then
    { r2 with venue := espn_row.venue }
  else r2

/-- The per-link update of the sofascore merge stage, service.py lines
186-225 (note the branch order: confirmation, then fill, then conflict). -/
def applySofaLink (parseIso : Option String → Option ℚ) (_link : MatchLink)
    (merged_row sofa_row : Row) : Row :=
  let r0 : Row :=
    { merged_row with
      sources :=
        if merged_row.sources.contains "sofascore" then merged_row.sources
        else merged_row.sources ++ ["sofascore"]
      external_ids := dictInsert merged_row.external_ids "sofascore"
        sofa_row.provider_match_id
      status := some (_preferred_status (orUnknown merged_row.status)
        (orUnknown sofa_row.status))
      last_updated_utc := _max_timestamp parseIso merged_row.last_updated_utc
        sofa_row.last_updated_utc }
  let merged_scores := _score_pair r0
  let sofa_scores := _score_pair sofa_row
  let r1 : Row :=
    if merged_scores = sofa_scores ∧ bothKnown merged_scores then
      { r0 with
        verification := "confirmed_by_multiple_sources"
        confidence := max r0.confidence (96 / 100) }
    else if ¬bothKnown merged_scores ∧ bothKnown sofa_scores then
      { r0 with
        home_score := sofa_row.home_score
        away_score := sofa_row.away_score
        verification := "filled_from_sofascore"
        confidence := max r0.confidence (86 / 100) }
    else if bothKnown merged_scores ∧ bothKnown sofa_scores ∧
        merged_scores ≠ sofa_scores then
      { r0 with
        verification := "score_conflict"
        confidence := min r0.confidence (50 / 100)
        discrepancies := r0.discrepancies ++
          ["Merged score " ++ showOptInt merged_scores.1 ++ "-" ++
            showOptInt merged_scores.2 ++ " differs from SofaScore " ++
            showOptInt sofa_scores.1 ++ "-" ++ showOptInt sofa_scores.2] }
    else r0
  if strFalsy r1.competition ∧ ¬strFalsy sofa_row.competition then
    { r1 with competition := sofa_row.competition }
  else r1

/-- The per-link update of the streamed merge stage, service.py lines
238-246: attach the watch URL, source id and external id only when the
streamed row's watch URL is truthy (present and non-empty). -/
def applyStreamLink (merged_row streamed_row : Row) : Row :=
  let watch_url := streamed_row.streamed_watch_url
  if strFalsy watch_url then merged_row
  else
    { merged_row with
      streamed_watch_url := watch_url
      sources :=
        if merged_row.sources.contains "streamed" then merged_row.sources
        else merged_row.sources ++ ["streamed"]
      external_ids := dictInsert merged_row.external_ids "streamed"
        streamed_row.provider_match_id }

/-- The `for link in links:` loops of `merge_provider_matches`: each accepted
link updates `merged[link.base_index]` in place from
`candidate_rows[link.candidate_index]`. -/
def foldLinks (applyLink : MatchLink → Row → Row → Row)
    (candidate_rows : List Row) : List MatchLink → List Row → List Row
  | [], merged => merged
  | link :: rest, merged =>
    foldLinks applyLink candidate_rows rest
      (merged.set link.base_index
        (applyLink link (merged.getD link.base_index default)
          (candidate_rows.getD link.candidate_index default)))

/-- The unlinked-row seeding loops of `merge_provider_matches` (service.py
lines 174-182 and 227-235): every candidate row whose index was not claimed
by a link becomes its own new canonical row. -/
def unlinkedSeeds (source : String) (conf : ℚ) (rows : List Row)
    (linked : List Nat) : List Row :=
  (rows.enum.filter fun p => !linked.contains p.1).map fun p =>
    seedRow source conf p.2

/-- Embeds `_sort_key`, service.py lines 248-253. -/
def _sort_key (row : Row) : Int × String × String :=
  (-(statusPriority (orUnknown row.status) : Int),
    orEmpty row.start_time_utc,
    pyLower ((orEmpty row.home_team) ++ " vs " ++ (orEmpty row.away_team)))

/-- Boolean lexicographic "≤" on sort keys, giving the ascending tuple order
used by `merged.sort(key=_sort_key)` (service.py line 255). -/
def sortKeyLe (a b : Row) : Bool :=
  let ka := _sort_key a
  let kb := _sort_key b
  if ka.1 < kb.1 then true
  else if kb.1 < ka.1 then false
  else if ka.2.1 < kb.2.1 then true
  else if kb.2.1 < ka.2.1 then false
  else !(decide (kb.2.2 < ka.2.2))

/-- Stage 1 of `merge_provider_matches` (service.py lines 121-127): the
`merged` list after seeding every goal row. -/
def mergeStage0 (goal_rows : List Row) : List Row :=
  goal_rows.map (seedRow "goal" (72 / 100))

/-- The `goal_espn_links` of `merge_provider_matches` (service.py line
129). -/
def goalEspnLinks (preprocess : String → String)
    (ratioFn : String → String → ℚ) (parseIso : Option String → Option ℚ)
    (goal_rows espn_rows : List Row) : List MatchLink :=
  _match_records preprocess ratioFn parseIso (mergeStage0 goal_rows)
    espn_rows 180 (76 / 100)

/-- The `merged` list after the goal/espn link loop of
`merge_provider_matches` (service.py lines 131-172). -/
def mergeStage1 (preprocess : String → String)
    (ratioFn : String → String → ℚ) (parseIso : Option String → Option ℚ)
    (goal_rows espn_rows : List Row) : List Row :=
  foldLinks (applyEspnLink parseIso) espn_rows
    (goalEspnLinks preprocess ratioFn parseIso goal_rows espn_rows)
    (mergeStage0 goal_rows)

/-- The `merged` list after appending unlinked espn seeds (service.py lines
174-182). -/
def mergeStage2 (preprocess : String → String)
    (ratioFn : String → String → ℚ) (parseIso : Option String → Option ℚ)
    (goal_rows espn_rows : List Row) : List Row :=
  mergeStage1 preprocess ratioFn parseIso goal_rows espn_rows ++
    unlinkedSeeds "espn" (68 / 100) espn_rows
      ((goalEspnLinks preprocess ratioFn parseIso goal_rows
        espn_rows).map MatchLink.candidate_index)

/-- The `merged_sofa_links` of `merge_provider_matches` (service.py line
184). -/
def mergedSofaLinks (preprocess : String → String)
    (ratioFn : String → String → ℚ) (parseIso : Option String → Option ℚ)
    (goal_rows espn_rows sofa_rows : List Row) : List MatchLink :=
  _match_records preprocess ratioFn parseIso
    (mergeStage2 preprocess ratioFn parseIso goal_rows espn_rows)
    sofa_rows 180 (78 / 100)

/-- The `merged` list after the sofascore link loop (service.py lines
186-225). -/
def mergeStage3 (preprocess : String → String)
    (ratioFn : String → String → ℚ) (parseIso : Option String → Option ℚ)
    (goal_rows espn_rows sofa_rows : List Row) : List Row :=
  foldLinks (applySofaLink parseIso) sofa_rows
    (mergedSofaLinks preprocess ratioFn parseIso goal_rows espn_rows
      sofa_rows)
    (mergeStage2 preprocess ratioFn parseIso goal_rows espn_rows)

/-- The `merged` list after appending unlinked sofascore seeds (service.py
lines 227-235). -/
def mergeStage4 (preprocess : String → String)
    (ratioFn : String → String → ℚ) (parseIso : Option String → Option ℚ)
    (goal_rows espn_rows sofa_rows : List Row) : List Row :=
  mergeStage3 preprocess ratioFn parseIso goal_rows espn_rows sofa_rows ++
    unlinkedSeeds "sofascore" (74 / 100) sofa_rows
      ((mergedSofaLinks preprocess ratioFn parseIso goal_rows espn_rows
        sofa_rows).map MatchLink.candidate_index)

/-- The `stream_links` of `merge_provider_matches` (service.py line 237). -/
def streamLinks (preprocess : String → String)
    (ratioFn : String → String → ℚ) (parseIso : Option String → Option ℚ)
    (goal_rows espn_rows streamed_rows sofa_rows : List Row) :
    List MatchLink :=
  _match_records preprocess ratioFn parseIso
    (mergeStage4 preprocess ratioFn parseIso goal_rows espn_rows sofa_rows)
    streamed_rows 180 (80 / 100)

/-- The `merged` list after the streamed link loop (service.py lines
238-246). -/
def mergeStage5 (preprocess : String → String)
    (ratioFn : String → String → ℚ) (parseIso : Option String → Option ℚ)
    (goal_rows espn_rows streamed_rows sofa_rows : List Row) : List Row :=
  foldLinks (fun _ m s => applyStreamLink m s) streamed_rows
    (streamLinks preprocess ratioFn parseIso goal_rows espn_rows
      streamed_rows sofa_rows)
    (mergeStage4 preprocess ratioFn parseIso goal_rows espn_rows sofa_rows)

/-- Embeds `merge_provider_matches`, service.py lines 113-256, as the
composition of the named stages above followed by the final sort (line
255). -/
def merge_provider_matches (preprocess : String → String)
    (ratioFn : String → String → ℚ) (parseIso : Option String → Option ℚ)
    (goal_rows espn_rows streamed_rows sofa_rows : List Row) : List Row :=
  (mergeStage5 preprocess ratioFn parseIso goal_rows espn_rows streamed_rows
    sofa_rows).mergeSort sortKeyLe

/-- The statuses a slot of the merged list observes from one link loop:
for each link of `links` whose base index is `i`, in loop order, the
`str(... or "unknown")` coercion of the linked candidate row's status
(exactly the second argument passed to `_preferred_status` at service.py
lines 139-142 and 194-197). -/
def linkedStatuses (cand_rows : List Row) (links : List MatchLink)
    (i : Nat) : List String :=
  (links.filter fun l => l.base_index == i).map
    fun l => orUnknown ((cand_rows.getD l.candidate_index default).status)

/-- The status of a merged row after folding in the statuses `cs` observed
from its linked rows, starting from its seed status `s0`: unchanged when no
link contributed, otherwise the left fold of `_preferred_status` starting
from the coerced seed status. -/
def statusAfter (s0 : Option String) (cs : List String) : Option String :=
  match cs with
  | [] => s0
  | _ :: _ => some (cs.foldl _preferred_status (orUnknown s0))

/-- The seed status of slot `i` of the merged list before sorting: the goal
row's own status for the goal-seeded region, otherwise the status of the
unlinked espn (respectively sofascore) source row seeded at that slot. -/
def pipelineSeedStatus (preprocess : String → String)
    (ratioFn : String → String → ℚ) (parseIso : Option String → Option ℚ)
    (goal_rows espn_rows sofa_rows : List Row) (i : Nat) : Option String :=
  if i < goal_rows.length then (goal_rows.getD i default).status
  else if i < (mergeStage2 preprocess ratioFn parseIso goal_rows
      espn_rows).length then
    ((unlinkedSeeds "espn" (68 / 100) espn_rows
      ((goalEspnLinks preprocess ratioFn parseIso goal_rows espn_rows).map
        MatchLink.candidate_index)).getD (i - goal_rows.length)
      default).status
  else
    ((unlinkedSeeds "sofascore" (74 / 100) sofa_rows
      ((mergedSofaLinks preprocess ratioFn parseIso goal_rows espn_rows
        sofa_rows).map MatchLink.candidate_index)).getD
      (i - (mergeStage2 preprocess ratioFn parseIso goal_rows
        espn_rows).length) default).status

/-- All statuses slot `i` of the merged list observes from linked sources,
in pipeline order: the espn statuses linked to it by `goalEspnLinks` (only
goal-seeded slots are link targets of that stage), then the sofascore
statuses linked to it by `mergedSofaLinks` (only slots existing before the
sofascore seeds are appended).  The streamed stage never contributes a
status (service.py lines 238-246 do not touch `status`). -/
def pipelineContribs (preprocess : String → String)
    (ratioFn : String → String → ℚ) (parseIso : Option String → Option ℚ)
    (goal_rows espn_rows sofa_rows : List Row) (i : Nat) : List String :=
  (if i < goal_rows.length then
    linkedStatuses espn_rows
      (goalEspnLinks preprocess ratioFn parseIso goal_rows espn_rows) i
   else []) ++
  (if i < (mergeStage2 preprocess ratioFn parseIso goal_rows
      espn_rows).length then
    linkedStatuses sofa_rows
      (mergedSofaLinks preprocess ratioFn parseIso goal_rows espn_rows
        sofa_rows) i
   else [])

def liveGoalRow : Row :=
  { status := some "live", home_team := some "arsenal" }

/-- The per-row annotation step of `_apply_quality_gate`, service.py lines
422-439: compute the age of the last update, mark staleness, and attach the
staleness reason when the row is stale. -/
def gateAnnotate (parseIso : Option String → Option ℚ)
    (max_live_stale_seconds reference_time : ℚ) (row : Row) : Row :=
  let last_updated := parseIso row.last_updated_utc
  let age_seconds : Option ℚ :=
    match last_updated with
    | none => none
    | some t => some (max 0 (reference_time - t))
  let status := pyLower (orUnknown row.status)
  let is_stale := status == "live" &&
    (match age_seconds with
     | none => true
     | some a => decide (max_live_stale_seconds < a))
  { row with
    last_update_age_seconds := age_seconds
    is_stale := is_stale
    staleness_reason :=
      if is_stale then
        some (match age_seconds with
          | none => "missing_last_update"
          | some _ =>
            "older_than_" ++ toString max_live_stale_seconds ++ "_seconds")
      else row.staleness_reason }

/-- The filtering loop of `_apply_quality_gate`, service.py lines 418-449:
annotate each row, drop conflicted rows first (counting them), then drop
stale rows (counting them), keep the rest. -/
def gateLoop (parseIso : Option String → Option ℚ)
    (max_live_stale_seconds reference_time : ℚ)
    (include_stale include_conflicts : Bool) :
    List Row → List Row × Nat × Nat
  | [] => ([], 0, 0)
  | row :: rest =>
    let candidate := gateAnnotate parseIso max_live_stale_seconds
      reference_time row
    let acc := gateLoop parseIso max_live_stale_seconds reference_time
      include_stale include_conflicts rest
    if candidate.verification == "score_conflict" && !include_conflicts then
      (acc.1, acc.2.1, acc.2.2 + 1)
    else if candidate.is_stale && !include_stale then
      (acc.1, acc.2.1 + 1, acc.2.2)
    else (candidate :: acc.1, acc.2.1, acc.2.2)

/-- Embeds `_apply_quality_gate`, service.py lines 407-449.  `now_fallback` models
`parse_iso_utc(utc_now_iso())`; the reference time is the parsed generation
timestamp when it parses, otherwise the fallback, and when both are absent the
rows are returned unfiltered with zero counts (lines 414-416). -/
def _apply_quality_gate (parseIso : Option String → Option ℚ)
    (max_live_stale_seconds : ℚ) (generated_at_utc : Option String)
    (now_fallback : Option ℚ) (include_stale include_conflicts : Bool)
    (match_rows : List Row) : List Row × Nat × Nat :=
  let reference_time : Option ℚ :=
    match parseIso generated_at_utc with
    | some t => some t
    | none => now_fallback
  match reference_time with
  | none => (match_rows, 0, 0)
  | some t =>
    gateLoop parseIso max_live_stale_seconds t include_stale
      include_conflicts match_rows

/-- All fields of a row except the watch URL, the sources list and the
external-id map: exactly the fields the streamed merge stage (service.py
lines 238-246) never writes. -/
def streamUntouched (r : Row) :=
  (r.home_team, r.away_team, r.home_score, r.away_score, r.status,
   r.competition, r.venue, r.start_time_utc, r.last_updated_utc,
   r.provider_match_id, r.confidence, r.verification, r.discrepancies,
   r.last_update_age_seconds, r.is_stale, r.staleness_reason)

def conflictGoalRow : Row :=
  { home_score := some 2, away_score := some 1,
    verification := "single_source", sources := ["goal"] }

def conflictEspnRow : Row :=
  { home_score := some 1, away_score := some 1 }

def parseIso0 : Option String → Option ℚ := fun s =>
  match s with
  | some "2024-06-01T12:00:00Z" => some 3600
  | some "2024-06-01T11:00:00Z" => some 0
  | _ => none

def conflictStaleRow : Row :=
  { status := some "live"
    verification := "score_conflict"
    last_updated_utc := some "2024-06-01T11:00:00Z"
    home_score := some 2
    away_score := some 1 }


/-- Value of `List.getD` after `List.set`, for any inhabited element type. -/
theorem getD_set {α : Type} [Inhabited α] :
    ∀ (l : List α) (n : Nat) (v : α) (i : Nat),
      (l.set n v).getD i default =
        if n = i ∧ i < l.length then v else l.getD i default
  | [], n, v, i => by simp [List.set]
  | a :: l, 0, v, 0 => by simp [List.set]
  | a :: l, 0, v, i + 1 => by simp [List.set, List.getD]
  | a :: l, n + 1, v, 0 => by simp [List.set, List.getD]
  | a :: l, n + 1, v, i + 1 => by
    have h := getD_set l n v i
    simp only [List.set, List.getD_cons_succ, List.length_cons, h]
    by_cases hn : n = i
    · subst hn
      by_cases hi : n < l.length
      · rw [if_pos ⟨rfl, hi⟩, if_pos ⟨rfl, by omega⟩]
      · rw [if_neg (by omega), if_neg (by omega)]
    · rw [if_neg (by omega), if_neg (by omega)]

/-- The streamed stage's per-link update never changes any field other than
`streamed_watch_url`, `sources` and `external_ids`. -/
theorem applyStreamLink_frame (m s : Row) :
    streamUntouched (applyStreamLink m s) = streamUntouched m := by
  unfold applyStreamLink
  by_cases h : strFalsy s.streamed_watch_url = true <;>
    simp [h, streamUntouched]

/-- C7: in the Quality Gate a row is marked stale iff its status is `live`
and its computed age is either absent or exceeds the configured threshold;
any non-live status is never marked stale, whatever its age.  Stated on
`gateAnnotate`, the per-row annotation step of `_apply_quality_gate`
(service.py lines 422-439), for an arbitrary resolved reference time. -/
theorem quality_gate_stale_iff (parseIso : Option String → Option ℚ)
    (max_live_stale_seconds reference_time : ℚ) (row : Row) :
    (gateAnnotate parseIso max_live_stale_seconds reference_time row).is_stale
      = true ↔
    (pyLower (orUnknown row.status) = "live" ∧
      ((gateAnnotate parseIso max_live_stale_seconds reference_time
          row).last_update_age_seconds = none ∨
        ∃ a, (gateAnnotate parseIso max_live_stale_seconds reference_time
            row).last_update_age_seconds = some a ∧
          max_live_stale_seconds < a)) := by
  unfold gateAnnotate
  cases h : parseIso row.last_updated_utc with
  | none => simp [h, beq_iff_eq]
  | some t => simp [h, beq_iff_eq]

/-- C10: in the streamed merge stage, a link whose streamed row has an absent
or empty watch URL leaves the canonical row entirely unchanged (no URL, no
source id, no external id); and in all cases the stage leaves every field of
every canonical row other than `streamed_watch_url`, `sources` and
`external_ids` unchanged. -/
theorem streamed_stage_frame (m s : Row) (links : List MatchLink)
    (streamed_rows merged : List Row) (i : Nat) :
    (strFalsy s.streamed_watch_url = true → applyStreamLink m s = m)
    ∧ streamUntouched ((foldLinks (fun _ a b => applyStreamLink a b)
        streamed_rows links merged).getD i default) =
      streamUntouched (merged.getD i default) := by
  constructor
  · intro h
    unfold applyStreamLink
    rw [if_pos h]
  · induction links generalizing merged with
    | nil => rfl
    | cons link rest ih =>
      rw [foldLinks, ih]
      rw [getD_set]
      split
      · next hcond =>
        rw [applyStreamLink_frame, hcond.1]
      · rfl

/-- C10 witness: a concrete streamed row with an empty watch URL leaves a
concrete canonical row unchanged. -/
theorem streamed_stage_frame_witness :
    strFalsy ({ streamed_watch_url := some "" } : Row).streamed_watch_url
      = true
    ∧ applyStreamLink { verification := "single_source" }
        { streamed_watch_url := some "" } =
      { verification := "single_source" } :=
  ⟨by decide,
    (streamed_stage_frame { verification := "single_source" }
      { streamed_watch_url := some "" } [] [] [] 0).1 (by decide)⟩

/-- C5: for an accepted goal/espn link the new confidence is
`round(min(0.98, 0.80 + (matchScore - 0.75)), 2)`, and the score-pair
adjustments (confirmation floor 0.95, conflict ceiling 0.56, fill floor
0.83) are applied on top of that freshly computed value. -/
theorem espn_link_confidence (parseIso : Option String → Option ℚ)
    (link : MatchLink) (goal_row espn_row : Row) :
    (applyEspnLink parseIso link goal_row espn_row).confidence =
      (let fresh := round2 (min (98 / 100)
        (80 / 100 + (link.similarity - 75 / 100)))
       let gs := (goal_row.home_score, goal_row.away_score)
       let es := (espn_row.home_score, espn_row.away_score)
       if gs = es ∧ bothKnown gs then max fresh (95 / 100)
       else if bothKnown gs ∧ bothKnown es ∧ gs ≠ es then min fresh (56 / 100)
       else if ¬bothKnown gs ∧ bothKnown es then max fresh (83 / 100)
       else fresh) := by
  unfold applyEspnLink _score_pair
  dsimp only
  split_ifs <;> rfl

/-- C6: merging an anchor row with known score 2-1 against a linked espn row
with known, disagreeing score 1-1 yields `verification=score_conflict`,
confidence at most 0.56 and exactly one discrepancy naming both score pairs;
and in general the espn stage can only produce `score_conflict` when both
sides have fully-known score pairs that differ. -/
theorem espn_conflict_behaviour (parseIso : Option String → Option ℚ)
    (link : MatchLink) (g e : Row)
    (hg : _score_pair g = (some 2, some 1))
    (he : _score_pair e = (some 1, some 1))
    (hd : g.discrepancies = []) :
    (applyEspnLink parseIso link g e).verification = "score_conflict"
    ∧ (applyEspnLink parseIso link g e).confidence ≤ 56 / 100
    ∧ (applyEspnLink parseIso link g e).discrepancies =
        ["Goal score 2-1 differs from ESPN 1-1"]
    ∧ ∀ g' e' : Row,
        (applyEspnLink parseIso link g' e').verification = "score_conflict" →
        g'.verification ≠ "score_conflict" →
        bothKnown (_score_pair g') = true ∧ bothKnown (_score_pair e') = true
          ∧ _score_pair g' ≠ _score_pair e' := by
  simp only [_score_pair, Prod.mk.injEq] at hg he
  refine ⟨?_, ?_, ?_, ?_⟩
  · unfold applyEspnLink
    dsimp only
    simp [_score_pair, hg.1, hg.2, he.1, he.2, bothKnown,
      apply_ite Row.verification]
  · unfold applyEspnLink
    dsimp only
    simp [_score_pair, hg.1, hg.2, he.1, he.2, bothKnown,
      apply_ite Row.confidence]
  · unfold applyEspnLink
    dsimp only
    simp [_score_pair, hg.1, hg.2, he.1, he.2, bothKnown, hd, showOptInt,
      apply_ite Row.discrepancies]
    rfl
  · intro g' e' hv hne
    unfold applyEspnLink at hv
    dsimp only [_score_pair] at hv
    simp only [_score_pair]
    split_ifs at hv with h1 h2 h3 <;> simp_all

/-- C6 witness: the conflict behaviour at a fully concrete pair of rows. -/
theorem espn_conflict_behaviour_witness :
    _score_pair conflictGoalRow = (some 2, some 1)
    ∧ _score_pair conflictEspnRow = (some 1, some 1)
    ∧ conflictGoalRow.discrepancies = []
    ∧ ((applyEspnLink (fun _ => none) (MatchLink.mk 0 0 (9 / 10) false)
          conflictGoalRow conflictEspnRow).verification = "score_conflict"
      ∧ (applyEspnLink (fun _ => none) (MatchLink.mk 0 0 (9 / 10) false)
          conflictGoalRow conflictEspnRow).confidence ≤ 56 / 100
      ∧ (applyEspnLink (fun _ => none) (MatchLink.mk 0 0 (9 / 10) false)
          conflictGoalRow conflictEspnRow).discrepancies =
          ["Goal score 2-1 differs from ESPN 1-1"]
      ∧ ∀ g' e' : Row,
          (applyEspnLink (fun _ => none) (MatchLink.mk 0 0 (9 / 10) false)
            g' e').verification = "score_conflict" →
          g'.verification ≠ "score_conflict" →
          bothKnown (_score_pair g') = true
            ∧ bothKnown (_score_pair e') = true
            ∧ _score_pair g' ≠ _score_pair e') :=
  ⟨rfl, rfl, rfl,
    espn_conflict_behaviour (fun _ => none) (MatchLink.mk 0 0 (9 / 10) false)
      conflictGoalRow conflictEspnRow rfl rfl rfl⟩

/-- The espn stage's per-link update never touches a fully-known score
pair. -/
theorem applyEspnLink_scores (parseIso : Option String → Option ℚ)
    (link : MatchLink) (g e : Row)
    (h : bothKnown (_score_pair g) = true) :
    _score_pair (applyEspnLink parseIso link g e) = _score_pair g := by
  simp only [_score_pair] at h ⊢
  unfold applyEspnLink
  dsimp only
  split_ifs <;> simp_all [_score_pair, bothKnown]

/-- The sofascore stage's per-link update never touches a fully-known score
pair. -/
theorem applySofaLink_scores (parseIso : Option String → Option ℚ)
    (link : MatchLink) (m sf : Row)
    (h : bothKnown (_score_pair m) = true) :
    _score_pair (applySofaLink parseIso link m sf) = _score_pair m := by
  simp only [_score_pair] at h ⊢
  unfold applySofaLink
  dsimp only
  split_ifs <;> simp_all [_score_pair, bothKnown]

/-- The streamed stage's per-link update never touches the score pair. -/
theorem applyStreamLink_scores (m s : Row) :
    _score_pair (applyStreamLink m s) = _score_pair m := by
  unfold applyStreamLink
  by_cases h : strFalsy s.streamed_watch_url = true <;> simp [h, _score_pair]

/-- A link fold whose per-link update preserves fully-known score pairs
preserves every row's fully-known score pair. -/
theorem foldLinks_scores (applyLink : MatchLink → Row → Row → Row)
    (cands : List Row)
    (hap : ∀ l r c, bothKnown (_score_pair r) = true →
      _score_pair (applyLink l r c) = _score_pair r)
    (links : List MatchLink) (merged : List Row) (i : Nat)
    (h : bothKnown (_score_pair (merged.getD i default)) = true) :
    _score_pair ((foldLinks applyLink cands links merged).getD i default) =
      _score_pair (merged.getD i default) := by
  induction links generalizing merged with
  | nil => rfl
  | cons link rest ih =>
    rw [foldLinks]
    by_cases hc : link.base_index = i ∧ i < merged.length
    · have hv : _score_pair
          (applyLink link (merged.getD link.base_index default)
            (cands.getD link.candidate_index default)) =
          _score_pair (merged.getD i default) := by
        rw [hc.1]
        exact hap _ _ _ h
      have hget : ((merged.set link.base_index
          (applyLink link (merged.getD link.base_index default)
            (cands.getD link.candidate_index default))).getD i default) =
          applyLink link (merged.getD link.base_index default)
            (cands.getD link.candidate_index default) := by
        rw [getD_set, if_pos hc]
      have hk : bothKnown (_score_pair ((merged.set link.base_index
          (applyLink link (merged.getD link.base_index default)
            (cands.getD link.candidate_index default))).getD i default))
          = true := by
        rw [hget, hv]; exact h
      rw [ih _ hk, hget, hv]
    · have hget : ((merged.set link.base_index
          (applyLink link (merged.getD link.base_index default)
            (cands.getD link.candidate_index default))).getD i default) =
          merged.getD i default := by
        rw [getD_set, if_neg hc]
      have hk : bothKnown (_score_pair ((merged.set link.base_index
          (applyLink link (merged.getD link.base_index default)
            (cands.getD link.candidate_index default))).getD i default))
          = true := by
        rw [hget]; exact h
      rw [ih _ hk, hget]

/-- C2: a canonical row whose home and away scores are both known before a
merge stage folds in another source keeps exactly that score pair through
the stage: no branch of any of the three link folds writes an absent (or
any other) value over a fully-known pair. -/
theorem merge_preserves_known_scores (parseIso : Option String → Option ℚ)
    (espn_rows sofa_rows streamed_rows : List Row)
    (links : List MatchLink) (merged : List Row) (i : Nat)
    (h : bothKnown (_score_pair (merged.getD i default)) = true) :
    _score_pair ((foldLinks (applyEspnLink parseIso) espn_rows links
        merged).getD i default) = _score_pair (merged.getD i default)
    ∧ _score_pair ((foldLinks (applySofaLink parseIso) sofa_rows links
        merged).getD i default) = _score_pair (merged.getD i default)
    ∧ _score_pair ((foldLinks (fun _ a b => applyStreamLink a b)
        streamed_rows links merged).getD i default) =
      _score_pair (merged.getD i default) :=
  ⟨foldLinks_scores _ _ (fun l r c => applyEspnLink_scores parseIso l r c)
      links merged i h,
    foldLinks_scores _ _ (fun l r c => applySofaLink_scores parseIso l r c)
      links merged i h,
    foldLinks_scores _ _ (fun _ r c _ => applyStreamLink_scores r c)
      links merged i h⟩

/-- C2 witness: a concrete merged row with known score 2-1 keeps its scores
through all three stage folds. -/
theorem merge_preserves_known_scores_witness :
    bothKnown (_score_pair (([conflictGoalRow].getD 0 default))) = true
    ∧ (_score_pair ((foldLinks (applyEspnLink (fun _ => none))
          [conflictEspnRow] [MatchLink.mk 0 0 (9 / 10) false]
          [conflictGoalRow]).getD 0 default) =
        _score_pair ([conflictGoalRow].getD 0 default)
      ∧ _score_pair ((foldLinks (applySofaLink (fun _ => none))
          [conflictEspnRow] [MatchLink.mk 0 0 (9 / 10) false]
          [conflictGoalRow]).getD 0 default) =
        _score_pair ([conflictGoalRow].getD 0 default)
      ∧ _score_pair ((foldLinks (fun _ a b => applyStreamLink a b)
          [conflictEspnRow] [MatchLink.mk 0 0 (9 / 10) false]
          [conflictGoalRow]).getD 0 default) =
        _score_pair ([conflictGoalRow].getD 0 default)) :=
  ⟨rfl,
    merge_preserves_known_scores (fun _ => none) [conflictEspnRow]
      [conflictEspnRow] [conflictEspnRow] [MatchLink.mk 0 0 (9 / 10) false]
      [conflictGoalRow] 0 rfl⟩

/-- Folding `_preferred_status` over a list of statuses returns exactly the
first status of maximal priority: the fold result splits the list into a
prefix of strictly lower priority, the result itself, and a suffix of
priority at most the result's. -/
theorem foldl_preferred_first_max (s0 : String) (l : List String) :
    ∃ pre post,
      s0 :: l = pre ++ (l.foldl _preferred_status s0) :: post
      ∧ (∀ t ∈ pre,
          statusPriority t < statusPriority (l.foldl _preferred_status s0))
      ∧ (∀ t ∈ post,
          statusPriority t ≤ statusPriority (l.foldl _preferred_status s0)) := by
  induction l generalizing s0 with
  | nil => exact ⟨[], [], rfl, by simp, by simp⟩
  | cons b l ih =>
    rw [List.foldl_cons]
    rcases ih (_preferred_status s0 b) with ⟨pre, post, heq, hpre, hpost⟩
    by_cases hb : statusPriority s0 < statusPriority b
    · have hpb : _preferred_status s0 b = b := by
        simp [_preferred_status, hb]
      rw [hpb] at heq hpre hpost ⊢
      have hbr : statusPriority b ≤
          statusPriority (l.foldl _preferred_status b) := by
        have hmem : b ∈ pre ++ (l.foldl _preferred_status b) :: post := by
          rw [← heq]; exact List.mem_cons_self _ _
        rcases List.mem_append.mp hmem with hp | hq
        · exact le_of_lt (hpre b hp)
        · rcases List.mem_cons.mp hq with heqb | hq'
          · exact le_of_eq (congrArg statusPriority heqb)
          · exact hpost b hq'
      refine ⟨s0 :: pre, post, ?_, ?_, hpost⟩
      · rw [List.cons_append, ← heq]
      · intro t ht
        rcases List.mem_cons.mp ht with rfl | ht'
        · exact lt_of_lt_of_le hb hbr
        · exact hpre t ht'
    · have hpb : _preferred_status s0 b = s0 := by
        simp [_preferred_status, hb]
      rw [hpb] at heq hpre hpost ⊢
      cases pre with
      | nil =>
        simp only [List.nil_append] at heq
        injection heq with h1 h2
        refine ⟨[], b :: l, ?_, by simp, ?_⟩
        · simp only [List.nil_append]
          rw [show l.foldl _preferred_status s0 = s0 from h1.symm]
        intro t ht
        rcases List.mem_cons.mp ht with rfl | ht'
        · rw [show l.foldl _preferred_status s0 = s0 from h1.symm]
          exact Nat.le_of_not_lt hb
        · exact hpost t (h2 ▸ ht')
      | cons p pre' =>
        rw [List.cons_append] at heq
        injection heq with h1 h2
        subst h1
        have hs0r : statusPriority s0 <
            statusPriority (l.foldl _preferred_status s0) :=
          hpre s0 (List.mem_cons_self _ _)
        refine ⟨s0 :: b :: pre', post, ?_, ?_, hpost⟩
        · simp only [List.cons_append]
          rw [show (pre' ++ l.foldl _preferred_status s0 :: post : List String)
            = l from h2.symm]
        · intro t ht
          rcases List.mem_cons.mp ht with rfl | ht'
          · exact hs0r
          · rcases List.mem_cons.mp ht' with rfl | ht''
            · exact lt_of_le_of_lt (Nat.le_of_not_lt hb) hs0r
            · exact hpre t (List.mem_cons_of_mem _ ht'')

/-- Coercing an optional status with `or "unknown"` never yields the empty
string. -/
theorem orUnknown_ne_empty (s : Option String) : orUnknown s ≠ "" := by
  cases s with
  | none => simp [orUnknown]
  | some t =>
    simp only [orUnknown]
    split
    · simp
    · next h => exact h

/-- On a non-empty string the `or "unknown"` coercion is the identity. -/
theorem orUnknown_some_of_ne (t : String) (h : t ≠ "") :
    orUnknown (some t) = t := by
  simp [orUnknown, h]

/-- The preferred status is always one of its two arguments. -/
theorem preferred_status_cases (a b : String) :
    _preferred_status a b = a ∨ _preferred_status a b = b := by
  unfold _preferred_status
  split
  · exact Or.inr rfl
  · exact Or.inl rfl

/-- Folding `_preferred_status` over non-empty strings from a non-empty
string never yields the empty string. -/
theorem foldl_preferred_ne_empty (l : List String) :
    ∀ (s : String), s ≠ "" → (∀ c ∈ l, c ≠ "") →
      l.foldl _preferred_status s ≠ "" := by
  induction l with
  | nil => intro s hs _; exact hs
  | cons c rest ih =>
    intro s hs hl
    rw [List.foldl_cons]
    refine ih _ ?_ fun d hd => hl d (List.mem_cons_of_mem _ hd)
    rcases preferred_status_cases s c with h | h <;> rw [h]
    · exact hs
    · exact hl c (List.mem_cons_self _ _)

/-- Absorbing one more observed status into `statusAfter`. -/
theorem statusAfter_cons (s0 : Option String) (c : String) (hc : c ≠ "")
    (cs : List String) :
    statusAfter (some (_preferred_status (orUnknown s0) c)) cs =
      statusAfter s0 (c :: cs) := by
  have hne : _preferred_status (orUnknown s0) c ≠ "" := by
    rcases preferred_status_cases (orUnknown s0) c with h | h <;> rw [h]
    · exact orUnknown_ne_empty s0
    · exact hc
  cases cs with
  | nil =>
    simp only [statusAfter, List.foldl_cons, List.foldl_nil]
  | cons d rest =>
    simp only [statusAfter]
    rw [orUnknown_some_of_ne _ hne]
    simp only [List.foldl_cons]

/-- Observed statuses accumulate across consecutive link loops. -/
theorem statusAfter_append (s0 : Option String) (cs1 cs2 : List String)
    (h1 : ∀ c ∈ cs1, c ≠ "") :
    statusAfter (statusAfter s0 cs1) cs2 = statusAfter s0 (cs1 ++ cs2) := by
  cases cs1 with
  | nil => rw [statusAfter, List.nil_append]
  | cons c1 rest1 =>
    cases cs2 with
    | nil =>
      rw [List.append_nil]
      rfl
    | cons c2 rest2 =>
      have hne : (c1 :: rest1).foldl _preferred_status (orUnknown s0) ≠ "" :=
        foldl_preferred_ne_empty _ _ (orUnknown_ne_empty s0) h1
      simp only [statusAfter, List.cons_append]
      rw [orUnknown_some_of_ne _ hne]
      simp only [List.foldl_cons, List.foldl_append]

/-- A link fold never changes the length of the merged list. -/
theorem foldLinks_length (applyLink : MatchLink → Row → Row → Row)
    (cands : List Row) :
    ∀ (links : List MatchLink) (merged : List Row),
      (foldLinks applyLink cands links merged).length = merged.length := by
  intro links
  induction links with
  | nil => intro merged; rfl
  | cons l rest ih =>
    intro merged
    rw [foldLinks, ih, List.length_set]

/-- The espn stage's per-link update sets the status to the preferred of the
old and the linked statuses (service.py lines 139-142). -/
theorem applyEspnLink_status (parseIso : Option String → Option ℚ)
    (link : MatchLink) (g e : Row) :
    (applyEspnLink parseIso link g e).status =
      some (_preferred_status (orUnknown g.status) (orUnknown e.status)) := by
  unfold applyEspnLink
  dsimp only
  split_ifs <;> rfl

/-- The sofascore stage's per-link update sets the status to the preferred
of the old and the linked statuses (service.py lines 194-197). -/
theorem applySofaLink_status (parseIso : Option String → Option ℚ)
    (link : MatchLink) (m sf : Row) :
    (applySofaLink parseIso link m sf).status =
      some (_preferred_status (orUnknown m.status) (orUnknown sf.status)) := by
  unfold applySofaLink
  dsimp only
  split_ifs <;> rfl

/-- The streamed stage's per-link update never changes the status
(service.py lines 238-246). -/
theorem applyStreamLink_status (m s : Row) :
    (applyStreamLink m s).status = m.status := by
  unfold applyStreamLink
  by_cases h : strFalsy s.streamed_watch_url = true <;> simp [h]

/-- One step of `linkedStatuses`: the head link contributes exactly when its
base index is the slot under consideration. -/
theorem linkedStatuses_cons (cands : List Row) (link : MatchLink)
    (rest : List MatchLink) (i : Nat) :
    linkedStatuses cands (link :: rest) i =
      if link.base_index = i then
        orUnknown ((cands.getD link.candidate_index default).status) ::
          linkedStatuses cands rest i
      else linkedStatuses cands rest i := by
  simp only [linkedStatuses, List.filter_cons]
  by_cases h : link.base_index = i
  · simp [h]
  · simp [h]

/-- Every observed linked status is an `or "unknown"` coercion, hence
non-empty. -/
theorem linkedStatuses_ne_empty (cands : List Row) (links : List MatchLink)
    (i : Nat) : ∀ c ∈ linkedStatuses cands links i, c ≠ "" := by
  intro c hc
  obtain ⟨l, _, rfl⟩ := List.mem_map.mp hc
  exact orUnknown_ne_empty _

/-- The status of slot `i` after a link loop whose per-link update combines
statuses through `_preferred_status`: exactly `statusAfter` of the slot's
previous status and the statuses of the candidates linked to slot `i`, in
loop order.  Each link updates only its own base index, once. -/
theorem foldLinks_status (applyLink : MatchLink → Row → Row → Row)
    (cands : List Row)
    (hap : ∀ l r c, (applyLink l r c).status =
      some (_preferred_status (orUnknown r.status) (orUnknown c.status))) :
    ∀ (links : List MatchLink) (merged : List Row) (i : Nat),
      i < merged.length →
      ((foldLinks applyLink cands links merged).getD i default).status =
        statusAfter ((merged.getD i default).status)
          (linkedStatuses cands links i) := by
  intro links
  induction links with
  | nil => intro merged i _; rfl
  | cons link rest ih =>
    intro merged i hi
    rw [foldLinks, linkedStatuses_cons]
    by_cases hbi : link.base_index = i
    · rw [if_pos hbi]
      have hset : (merged.set link.base_index
          (applyLink link (merged.getD link.base_index default)
            (cands.getD link.candidate_index default))).getD i default =
          applyLink link (merged.getD i default)
            (cands.getD link.candidate_index default) := by
        rw [getD_set, if_pos ⟨hbi, hi⟩, hbi]
      rw [ih _ i (by rw [List.length_set]; exact hi), hset, hap]
      exact statusAfter_cons _ _ (orUnknown_ne_empty _) _
    · rw [if_neg hbi]
      have hset : (merged.set link.base_index
          (applyLink link (merged.getD link.base_index default)
            (cands.getD link.candidate_index default))).getD i default =
          merged.getD i default := by
        rw [getD_set, if_neg fun hcon => hbi hcon.1]
      rw [ih _ i (by rw [List.length_set]; exact hi), hset]

/-- The streamed link fold changes no slot's status. -/
theorem foldStream_status (streamed : List Row) :
    ∀ (links : List MatchLink) (merged : List Row) (i : Nat),
      ((foldLinks (fun _ m s => applyStreamLink m s) streamed links
        merged).getD i default).status = (merged.getD i default).status := by
  intro links
  induction links with
  | nil => intro merged i; rfl
  | cons link rest ih =>
    intro merged i
    rw [foldLinks, ih, getD_set]
    split
    · next hcond => rw [applyStreamLink_status, hcond.1]
    · rfl

/-- Seeding a list of rows preserves each slot's status. -/
theorem mergeStage0_status (goal_rows : List Row) (i : Nat)
    (hi : i < goal_rows.length) :
    ((mergeStage0 goal_rows).getD i default).status =
      (goal_rows.getD i default).status := by
  rw [mergeStage0,
    List.getD_eq_getElem _ _ (by rw [List.length_map]; exact hi),
    List.getElem_map, List.getD_eq_getElem _ _ hi]
  rfl

/-- Every row produced by the unlinked-seed loop is the seed of one of the
source rows. -/
theorem unlinkedSeeds_mem (source : String) (conf : ℚ) (rows : List Row)
    (linked : List Nat) :
    ∀ r ∈ unlinkedSeeds source conf rows linked,
      ∃ row ∈ rows, r = seedRow source conf row := by
  intro r hr
  unfold unlinkedSeeds at hr
  obtain ⟨p, hp, rfl⟩ := List.mem_map.mp hr
  obtain ⟨i0, x⟩ := p
  have hpe := (List.mem_filter.mp hp).1
  obtain ⟨hlt, hx⟩ := List.mem_enum hpe
  exact ⟨x, by rw [hx]; exact List.mem_iff_getElem.mpr ⟨i0, hlt, rfl⟩, rfl⟩

/-- The quality-gate loop is additive over list concatenation: kept rows
concatenate and both drop counters add. -/
theorem gateLoop_append (parseIso : Option String → Option ℚ)
    (max_s ref : ℚ) (inc_stale inc_conf : Bool) (a b : List Row) :
    gateLoop parseIso max_s ref inc_stale inc_conf (a ++ b) =
      ((gateLoop parseIso max_s ref inc_stale inc_conf a).1 ++
        (gateLoop parseIso max_s ref inc_stale inc_conf b).1,
       (gateLoop parseIso max_s ref inc_stale inc_conf a).2.1 +
        (gateLoop parseIso max_s ref inc_stale inc_conf b).2.1,
       (gateLoop parseIso max_s ref inc_stale inc_conf a).2.2 +
        (gateLoop parseIso max_s ref inc_stale inc_conf b).2.2) := by
  induction a with
  | nil => simp [gateLoop]
  | cons r rest ih =>
    simp only [List.cons_append, gateLoop, List.append_eq, ih]
    split_ifs <;> simp [Prod.ext_iff] <;> omega

/-- The annotation step never changes a row's verification. -/
theorem gateAnnotate_verification (parseIso : Option String → Option ℚ)
    (max_s ref : ℚ) (row : Row) :
    (gateAnnotate parseIso max_s ref row).verification = row.verification :=
  rfl

/-- C1 (amended): a row that is both a score conflict and stale, filtered
with `includeConflicts=false` and `includeStale=false`, is excluded from the
output and counted once in the dropped-conflicts counter only; the
dropped-stale counter is not incremented for it, because the conflict check
runs first and short-circuits the loop iteration. -/
theorem conflict_stale_row_counting (parseIso : Option String → Option ℚ)
    (max_s : ℚ) (gen : Option String) (now_fb : Option ℚ) (ref : ℚ)
    (pre post : List Row) (row : Row)
    (href : parseIso gen = some ref)
    (hconf : row.verification = "score_conflict")
    (hstale : (gateAnnotate parseIso max_s ref row).is_stale = true) :
    _apply_quality_gate parseIso max_s gen now_fb false false
        (pre ++ row :: post) =
      ((gateLoop parseIso max_s ref false false pre).1 ++
        (gateLoop parseIso max_s ref false false post).1,
       (gateLoop parseIso max_s ref false false pre).2.1 +
        (gateLoop parseIso max_s ref false false post).2.1,
       (gateLoop parseIso max_s ref false false pre).2.2 +
        (gateLoop parseIso max_s ref false false post).2.2 + 1) := by
  unfold _apply_quality_gate
  rw [href]
  dsimp only
  rw [gateLoop_append]
  have hver : (gateAnnotate parseIso max_s ref row).verification =
      "score_conflict" := by
    rw [gateAnnotate_verification, hconf]
  simp only [gateLoop, hver]
  simp [Prod.ext_iff]
  omega

/-- The concrete conflicted live row is stale against a 180-second threshold
at a reference time one hour after its last update. -/
theorem conflictStaleRow_stale :
    (gateAnnotate parseIso0 180 3600 conflictStaleRow).is_stale = true := by
  have h1 : parseIso0 conflictStaleRow.last_updated_utc = some 0 := rfl
  unfold gateAnnotate
  rw [h1]
  have h2 : pyLower (orUnknown conflictStaleRow.status) = "live" := by decide
  simp [h2]
  norm_num

/-- C1 witness: the amended counting behaviour at the concrete
conflicted-and-stale row, with empty prefix and suffix. -/
theorem conflict_stale_row_counting_witness :
    parseIso0 (some "2024-06-01T12:00:00Z") = some 3600
    ∧ conflictStaleRow.verification = "score_conflict"
    ∧ (gateAnnotate parseIso0 180 3600 conflictStaleRow).is_stale = true
    ∧ _apply_quality_gate parseIso0 180 (some "2024-06-01T12:00:00Z") none
        false false ([] ++ conflictStaleRow :: []) =
      ((gateLoop parseIso0 180 3600 false false []).1 ++
        (gateLoop parseIso0 180 3600 false false []).1,
       (gateLoop parseIso0 180 3600 false false []).2.1 +
        (gateLoop parseIso0 180 3600 false false []).2.1,
       (gateLoop parseIso0 180 3600 false false []).2.2 +
        (gateLoop parseIso0 180 3600 false false []).2.2 + 1) :=
  ⟨rfl, rfl, conflictStaleRow_stale,
    conflict_stale_row_counting parseIso0 180 (some "2024-06-01T12:00:00Z")
      none 3600 [] [] conflictStaleRow rfl rfl conflictStaleRow_stale⟩

/-- C1 counterexample: the concrete row is a score conflict and is stale,
both include flags are false, yet the quality gate counts it only in the
dropped-conflicts counter: `dropped_stale` is 0, not 1 as the claim
requires. -/
theorem conflict_stale_row_claim_false :
    conflictStaleRow.verification = "score_conflict"
    ∧ (gateAnnotate parseIso0 180 3600 conflictStaleRow).is_stale = true
    ∧ _apply_quality_gate parseIso0 180 (some "2024-06-01T12:00:00Z") none
        false false [conflictStaleRow] = ([], 0, 1)
    ∧ ¬((_apply_quality_gate parseIso0 180 (some "2024-06-01T12:00:00Z")
        none false false [conflictStaleRow]).2.1 = 1) := by
  have key : _apply_quality_gate parseIso0 180 (some "2024-06-01T12:00:00Z")
      none false false [conflictStaleRow] = ([], 0, 1) := by
    have href : parseIso0 (some "2024-06-01T12:00:00Z") = some 3600 := rfl
    unfold _apply_quality_gate
    rw [href]
    have hver : (gateAnnotate parseIso0 180 3600
        conflictStaleRow).verification = "score_conflict" := rfl
    simp [gateLoop, hver]
  exact ⟨rfl, conflictStaleRow_stale, key, by rw [key]; decide⟩

/-- Full characterization of the best-candidate scan of `_match_records`: a
returned link carries the scanning base index, points at an unused candidate
whose computed score is the link's score, beats every eligible candidate's
score, and on score ties has the smallest candidate index (because only a
strictly greater score replaces the current best). -/
theorem scanCandidates_spec (preprocess : String → String)
    (ratioFn : String → String → ℚ) (parseIso : Option String → Option ℚ)
    (base : Row) (bi : Nat) (used : List Nat) (maxM : ℚ) :
    ∀ (cands : List Row) (ci : Nat) (best : Option MatchLink) (l : MatchLink),
      (∀ b, best = some b → b.base_index = bi ∧ b.candidate_index < ci) →
      scanCandidates preprocess ratioFn parseIso base bi used maxM cands ci
        best = some l →
      l.base_index = bi
      ∧ (best = some l ∨ ∃ j c sw, cands.get? j = some c
          ∧ l.candidate_index = ci + j
          ∧ used.contains (ci + j) = false
          ∧ candidateScore preprocess ratioFn parseIso base c maxM =
              some (l.similarity, sw))
      ∧ (∀ b, best = some b → b.similarity ≤ l.similarity
          ∧ (l ≠ b → b.similarity < l.similarity))
      ∧ (∀ j c s sw, cands.get? j = some c →
          used.contains (ci + j) = false →
          candidateScore preprocess ratioFn parseIso base c maxM =
            some (s, sw) →
          s ≤ l.similarity ∧ (s = l.similarity → l.candidate_index ≤ ci + j)) := by
  intro cands
  induction cands with
  | nil =>
    intro ci best l hbest hscan
    simp only [scanCandidates] at hscan
    refine ⟨(hbest l hscan).1, Or.inl hscan, ?_, ?_⟩
    · intro b hb
      rw [hscan] at hb
      injection hb with hb
      subst hb
      exact ⟨le_refl _, fun hne => absurd rfl hne⟩
    · intro j c s sw hj
      simp at hj
  | cons cand rest ih =>
    intro ci best l hbest hscan
    simp only [scanCandidates] at hscan
    by_cases hused : used.contains ci = true
    · rw [if_pos hused] at hscan
      have hbest' : ∀ b, best = some b →
          b.base_index = bi ∧ b.candidate_index < ci + 1 :=
        fun b hb => ⟨(hbest b hb).1, Nat.lt_succ_of_lt (hbest b hb).2⟩
      obtain ⟨h1, h2, h3, h4⟩ := ih (ci + 1) best l hbest' hscan
      refine ⟨h1, ?_, h3, ?_⟩
      · rcases h2 with h | ⟨j, c, sw, hj, hci, hu, hs⟩
        · exact Or.inl h
        · refine Or.inr ⟨j + 1, c, sw, by simpa using hj, by omega, ?_, hs⟩
          rw [show ci + (j + 1) = ci + 1 + j by omega]
          exact hu
      · intro j c s sw hj hu hs
        cases j with
        | zero =>
          rw [Nat.add_zero] at hu
          rw [hused] at hu
          exact absurd hu (by simp)
        | succ j' =>
          have hres := h4 j' c s sw (by simpa using hj)
            (by rw [show ci + 1 + j' = ci + (j' + 1) by omega]; exact hu)
            hs
          exact ⟨hres.1, fun he => by have := hres.2 he; omega⟩
    · rw [if_neg hused] at hscan
      have husedF : used.contains ci = false := by
        simpa using hused
      cases hcs : candidateScore preprocess ratioFn parseIso base cand maxM
        with
      | none =>
        rw [hcs] at hscan
        have hbest' : ∀ b, best = some b →
            b.base_index = bi ∧ b.candidate_index < ci + 1 :=
          fun b hb => ⟨(hbest b hb).1, Nat.lt_succ_of_lt (hbest b hb).2⟩
        obtain ⟨h1, h2, h3, h4⟩ := ih (ci + 1) best l hbest' hscan
        refine ⟨h1, ?_, h3, ?_⟩
        · rcases h2 with h | ⟨j, c, sw, hj, hci, hu, hs⟩
          · exact Or.inl h
          · refine Or.inr ⟨j + 1, c, sw, by simpa using hj, by omega, ?_, hs⟩
            rw [show ci + (j + 1) = ci + 1 + j by omega]
            exact hu
        · intro j c s sw hj hu hs
          cases j with
          | zero =>
            simp only [List.get?] at hj
            injection hj with hj
            subst hj
            rw [hcs] at hs
            exact absurd hs (by simp)
          | succ j' =>
            have hres := h4 j' c s sw (by simpa using hj)
              (by rw [show ci + 1 + j' = ci + (j' + 1) by omega]; exact hu)
              hs
            exact ⟨hres.1, fun he => by have := hres.2 he; omega⟩
      | some p =>
        obtain ⟨s0, sw0⟩ := p
        rw [hcs] at hscan
        cases best with
        | none =>
          dsimp only at hscan
          have hbest' : ∀ b,
              some (MatchLink.mk bi ci s0 sw0) = some b →
              b.base_index = bi ∧ b.candidate_index < ci + 1 := by
            intro b hb
            injection hb with hb
            subst hb
            exact ⟨rfl, Nat.lt_succ_self _⟩
          obtain ⟨h1, h2, h3, h4⟩ := ih (ci + 1)
            (some (MatchLink.mk bi ci s0 sw0)) l hbest' hscan
          have hn := h3 (MatchLink.mk bi ci s0 sw0) rfl
          refine ⟨h1, ?_, ?_, ?_⟩
          · rcases h2 with h | ⟨j, c, sw, hj, hci, hu, hs⟩
            · injection h with h

              subst h

              refine Or.inr ⟨0, cand, sw0, rfl, by simp, ?_, hcs⟩

              rw [Nat.add_zero]; exact husedF
            · refine Or.inr ⟨j + 1, c, sw, by simpa using hj, by omega, ?_,
                hs⟩
              rw [show ci + (j + 1) = ci + 1 + j by omega]
              exact hu
          · intro b hb
            exact absurd hb (by simp)
          · intro j c s sw hj hu hs
            cases j with
            | zero =>
              simp only [List.get?] at hj
              injection hj with hj
              subst hj
              rw [hcs] at hs
              injection hs with hs
              injection hs with hs1 hs2
              subst hs1
              refine ⟨hn.1, fun he => ?_⟩
              by_cases hln : l = MatchLink.mk bi ci s0 sw0
              · rw [hln]
                simp
              · exact absurd (hn.2 hln) (by rw [he]; exact lt_irrefl _)
            | succ j' =>
              have hres := h4 j' c s sw (by simpa using hj)
                (by rw [show ci + 1 + j' = ci + (j' + 1) by omega]; exact hu)
                hs
              exact ⟨hres.1, fun he => by have := hres.2 he; omega⟩
        | some b =>
          dsimp only at hscan
          by_cases hlt : b.similarity < s0
          · rw [if_pos hlt] at hscan
            have hbest' : ∀ b0,
                some (MatchLink.mk bi ci s0 sw0) = some b0 →
                b0.base_index = bi ∧ b0.candidate_index < ci + 1 := by
              intro b0 hb
              injection hb with hb
              subst hb
              exact ⟨rfl, Nat.lt_succ_self _⟩
            obtain ⟨h1, h2, h3, h4⟩ := ih (ci + 1)
              (some (MatchLink.mk bi ci s0 sw0)) l hbest' hscan
            have hn := h3 (MatchLink.mk bi ci s0 sw0) rfl
            refine ⟨h1, ?_, ?_, ?_⟩
            · rcases h2 with h | ⟨j, c, sw, hj, hci, hu, hs⟩
              · injection h with h

                subst h

                refine Or.inr ⟨0, cand, sw0, rfl, by simp, ?_, hcs⟩

                rw [Nat.add_zero]; exact husedF
              · refine Or.inr ⟨j + 1, c, sw, by simpa using hj, by omega,
                  ?_, hs⟩
                rw [show ci + (j + 1) = ci + 1 + j by omega]
                exact hu
            · intro b0 hb
              injection hb with hb
              subst hb
              exact ⟨le_of_lt (lt_of_lt_of_le hlt hn.1),
                fun _ => lt_of_lt_of_le hlt hn.1⟩
            · intro j c s sw hj hu hs
              cases j with
              | zero =>
                simp only [List.get?] at hj
                injection hj with hj
                subst hj
                rw [hcs] at hs
                injection hs with hs
                injection hs with hs1 hs2
                subst hs1
                refine ⟨hn.1, fun he => ?_⟩
                by_cases hln : l = MatchLink.mk bi ci s0 sw0
                · rw [hln]
                  simp
                · exact absurd (hn.2 hln) (by rw [he]; exact lt_irrefl _)
              | succ j' =>
                have hres := h4 j' c s sw (by simpa using hj)
                  (by rw [show ci + 1 + j' = ci + (j' + 1) by omega]; exact hu)
                  hs
                exact ⟨hres.1, fun he => by have := hres.2 he; omega⟩
          · rw [if_neg hlt] at hscan
            have hb0 := hbest b rfl
            have hbest' : ∀ b0, some b = some b0 →
                b0.base_index = bi ∧ b0.candidate_index < ci + 1 := by
              intro b0 hb
              injection hb with hb
              subst hb
              exact ⟨hb0.1, Nat.lt_succ_of_lt hb0.2⟩
            obtain ⟨h1, h2, h3, h4⟩ := ih (ci + 1) (some b) l hbest' hscan
            have hbl := h3 b rfl
            refine ⟨h1, ?_, ?_, ?_⟩
            · rcases h2 with h | ⟨j, c, sw, hj, hci, hu, hs⟩
              · exact Or.inl h
              · refine Or.inr ⟨j + 1, c, sw, by simpa using hj, by omega,
                  ?_, hs⟩
                rw [show ci + (j + 1) = ci + 1 + j by omega]
                exact hu
            · intro b0 hb
              injection hb with hb
              subst hb
              exact hbl
            · intro j c s sw hj hu hs
              cases j with
              | zero =>
                simp only [List.get?] at hj
                injection hj with hj
                subst hj
                rw [hcs] at hs
                injection hs with hs
                injection hs with hs1 hs2
                subst hs1
                have hsb : s0 ≤ b.similarity := not_lt.mp hlt
                refine ⟨le_trans hsb hbl.1, fun he => ?_⟩
                have hbsim : b.similarity = l.similarity :=
                  le_antisymm hbl.1 (he ▸ hsb)
                by_cases hlb : l = b
                · rw [hlb]
                  have := hb0.2
                  omega
                · exact absurd (hbl.2 hlb)
                    (by rw [hbsim]; exact lt_irrefl _)
              | succ j' =>
                have hres := h4 j' c s sw (by simpa using hj)
                  (by rw [show ci + 1 + j' = ci + (j' + 1) by omega]; exact hu)
                  hs
                exact ⟨hres.1, fun he => by have := hres.2 he; omega⟩

/-- Invariants of the outer `_match_records` loop: every produced link's base
index is at least the current scanning index, its candidate index is not in
the incoming used set, its score reaches the minimum similarity, base
indices are strictly increasing, and candidate indices are pairwise
distinct. -/
theorem matchRecordsAux_spec (preprocess : String → String)
    (ratioFn : String → String → ℚ) (parseIso : Option String → Option ℚ)
    (cands : List Row) (maxM minS : ℚ) :
    ∀ (base : List Row) (bi : Nat) (used : List Nat),
      (∀ l ∈ matchRecordsAux preprocess ratioFn parseIso cands maxM minS
          base bi used,
        bi ≤ l.base_index ∧ used.contains l.candidate_index = false ∧
          minS ≤ l.similarity)
      ∧ List.Pairwise (· < ·)
          ((matchRecordsAux preprocess ratioFn parseIso cands maxM minS
            base bi used).map MatchLink.base_index)
      ∧ ((matchRecordsAux preprocess ratioFn parseIso cands maxM minS
          base bi used).map MatchLink.candidate_index).Nodup := by
  intro base
  induction base with
  | nil =>
    intro bi used
    simp [matchRecordsAux]
  | cons b rest ih =>
    intro bi used
    cases hscan : scanCandidates preprocess ratioFn parseIso b bi used maxM
      cands 0 none with
    | none =>
      have heq : matchRecordsAux preprocess ratioFn parseIso cands maxM minS
          (b :: rest) bi used =
          matchRecordsAux preprocess ratioFn parseIso cands maxM minS rest
            (bi + 1) used := by
        simp only [matchRecordsAux, hscan]
      rw [heq]
      obtain ⟨ha, hp, hn⟩ := ih (bi + 1) used
      exact ⟨fun l hl => ⟨le_trans (Nat.le_succ _) (ha l hl).1,
        (ha l hl).2.1, (ha l hl).2.2⟩, hp, hn⟩
    | some best =>
      by_cases hlt : best.similarity < minS
      · have heq : matchRecordsAux preprocess ratioFn parseIso cands maxM
            minS (b :: rest) bi used =
            matchRecordsAux preprocess ratioFn parseIso cands maxM minS rest
              (bi + 1) used := by
          simp only [matchRecordsAux, hscan, if_pos hlt]
        rw [heq]
        obtain ⟨ha, hp, hn⟩ := ih (bi + 1) used
        exact ⟨fun l hl => ⟨le_trans (Nat.le_succ _) (ha l hl).1,
          (ha l hl).2.1, (ha l hl).2.2⟩, hp, hn⟩
      · have heq : matchRecordsAux preprocess ratioFn parseIso cands maxM
            minS (b :: rest) bi used =
            best :: matchRecordsAux preprocess ratioFn parseIso cands maxM
              minS rest (bi + 1) (best.candidate_index :: used) := by
          simp only [matchRecordsAux, hscan, if_neg hlt]
        rw [heq]
        obtain ⟨hspec1, hspec2, _, _⟩ := scanCandidates_spec preprocess
          ratioFn parseIso b bi used maxM cands 0 none best
          (fun x hx => absurd hx (by simp)) hscan
        have hbestci : used.contains best.candidate_index = false := by
          rcases hspec2 with h | ⟨j, c, sw, hj, hci, hu, hs⟩
          · exact absurd h (by simp)
          · rw [hci]
            simpa using hu
        obtain ⟨ha, hp, hn⟩ := ih (bi + 1) (best.candidate_index :: used)
        refine ⟨?_, ?_, ?_⟩
        · intro l hl
          rcases List.mem_cons.mp hl with rfl | hl'
          · exact ⟨le_of_eq hspec1.symm, hbestci, not_lt.mp hlt⟩
          · have h := ha l hl'
            refine ⟨le_trans (Nat.le_succ _) h.1, ?_, h.2.2⟩
            have h2 := h.2.1
            simp only [List.contains_cons, Bool.or_eq_false_iff] at h2
            exact h2.2
        · rw [List.map_cons]
          refine List.pairwise_cons.mpr ⟨?_, hp⟩
          intro x hx
          obtain ⟨l', hl', rfl⟩ := List.mem_map.mp hx
          have := (ha l' hl').1
          rw [hspec1]
          omega
        · rw [List.map_cons]
          refine List.nodup_cons.mpr ⟨?_, hn⟩
          intro hmem
          obtain ⟨l', hl', heq'⟩ := List.mem_map.mp hmem
          have h2 := (ha l' hl').2.1
          simp only [List.contains_cons, Bool.or_eq_false_iff] at h2
          have := h2.1
          simp only [heq'] at this
          simp at this

/-- Every link the Record Linker returns points inside the candidate
list. -/
theorem matchRecords_candidate_lt (preprocess : String → String)
    (ratioFn : String → String → ℚ) (parseIso : Option String → Option ℚ)
    (cands : List Row) (maxM minS : ℚ) :
    ∀ (base : List Row) (bi : Nat) (used : List Nat),
      ∀ l ∈ matchRecordsAux preprocess ratioFn parseIso cands maxM minS
        base bi used, l.candidate_index < cands.length := by
  intro base
  induction base with
  | nil =>
    intro bi used l hl
    simp [matchRecordsAux] at hl
  | cons b rest ih =>
    intro bi used l hl
    cases hscan : scanCandidates preprocess ratioFn parseIso b bi used maxM
      cands 0 none with
    | none =>
      simp only [matchRecordsAux, hscan] at hl
      exact ih _ _ l hl
    | some best =>
      simp only [matchRecordsAux, hscan] at hl
      by_cases hlt : best.similarity < minS
      · rw [if_pos hlt] at hl
        exact ih _ _ l hl
      · rw [if_neg hlt] at hl
        rcases List.mem_cons.mp hl with rfl | hl'
        · obtain ⟨_, h2, _, _⟩ := scanCandidates_spec preprocess ratioFn
            parseIso b bi used maxM cands 0 none l
            (fun x hx => absurd hx (by simp)) hscan
          rcases h2 with h | ⟨j, c, sw, hj, hci, _, _⟩
          · exact absurd h (by simp)
          · obtain ⟨hjlt, _⟩ := List.get?_eq_some.mp hj
            omega
        · exact ih _ _ l hl'

/-- C4: the Record Linker returns at most one link per base row (base
indices strictly increase), pairwise-distinct candidate indices (a candidate
accepted for an earlier base row is never available to a later one), and
every returned link's final score is at least the minimum similarity
threshold. -/
theorem record_linker_one_to_one (preprocess : String → String)
    (ratioFn : String → String → ℚ) (parseIso : Option String → Option ℚ)
    (base_rows candidate_rows : List Row) (maxM minS : ℚ) :
    List.Pairwise (· < ·)
      ((_match_records preprocess ratioFn parseIso base_rows candidate_rows
        maxM minS).map MatchLink.base_index)
    ∧ ((_match_records preprocess ratioFn parseIso base_rows candidate_rows
        maxM minS).map MatchLink.candidate_index).Nodup
    ∧ ∀ l ∈ _match_records preprocess ratioFn parseIso base_rows
        candidate_rows maxM minS, minS ≤ l.similarity := by
  obtain ⟨ha, hp, hn⟩ := matchRecordsAux_spec preprocess ratioFn parseIso
    candidate_rows maxM minS base_rows 0 []
  exact ⟨hp, hn, fun l hl => (ha l hl).2.2⟩

/-- C4 witness: a concrete run with one base row and one candidate row
produces the single link with score 1, which reaches the 0.74 threshold. -/
theorem record_linker_one_to_one_witness :
    (74 / 100 : ℚ) ≤ (MatchLink.mk 0 0 1 false).similarity := by
  have hrun : _match_records (fun s => s) (fun _ _ => 1) (fun _ => none)
      [{}] [{}] 180 (74 / 100) = [MatchLink.mk 0 0 1 false] := by
    norm_num [_match_records, matchRecordsAux, scanCandidates,
      candidateScore, minutes_between, team_pair_similarity, similarity,
      normalize_team_name, orEmpty]
  exact (record_linker_one_to_one (fun s => s) (fun _ _ => 1)
    (fun _ => none) [{}] [{}] 180 (74 / 100)).2.2 (MatchLink.mk 0 0 1 false)
    (by rw [hrun]; exact List.mem_singleton.mpr rfl)

/-- C9: the best-candidate scan of the Record Linker is fully deterministic:
a returned link points at an unused candidate achieving the maximum eligible
score, and whenever another unused candidate achieves exactly the same final
score, the returned candidate index is the smaller one (the comparison that
replaces the current best is strict greater-than). -/
theorem record_linker_tie_break (preprocess : String → String)
    (ratioFn : String → String → ℚ) (parseIso : Option String → Option ℚ)
    (base : Row) (bi : Nat) (used : List Nat) (maxM : ℚ) (cands : List Row)
    (l : MatchLink)
    (h : scanCandidates preprocess ratioFn parseIso base bi used maxM cands
      0 none = some l) :
    l.base_index = bi
    ∧ (∃ j c sw, cands.get? j = some c ∧ l.candidate_index = j
        ∧ used.contains j = false
        ∧ candidateScore preprocess ratioFn parseIso base c maxM =
            some (l.similarity, sw))
    ∧ ∀ j c s sw, cands.get? j = some c → used.contains j = false →
        candidateScore preprocess ratioFn parseIso base c maxM =
          some (s, sw) →
        s ≤ l.similarity ∧ (s = l.similarity → l.candidate_index ≤ j) := by
  obtain ⟨h1, h2, _, h4⟩ := scanCandidates_spec preprocess ratioFn parseIso
    base bi used maxM cands 0 none l (fun x hx => absurd hx (by simp)) h
  refine ⟨h1, ?_, ?_⟩
  · rcases h2 with h | ⟨j, c, sw, hj, hci, hu, hs⟩
    · exact absurd h (by simp)
    · exact ⟨j, c, sw, hj, by omega, by simpa using hu, hs⟩
  · intro j c s sw hj hu hs
    have := h4 j c s sw hj (by simpa using hu) hs
    exact ⟨this.1, fun he => by have := this.2 he; omega⟩

/-- C9 witness: two identical candidates score equally (both 1); the scan
returns candidate index 0, the smaller of the two. -/
theorem record_linker_tie_break_witness :
    (1 : ℚ) ≤ (MatchLink.mk 0 0 1 false).similarity
    ∧ ((1 : ℚ) = (MatchLink.mk 0 0 1 false).similarity →
        (MatchLink.mk 0 0 1 false).candidate_index ≤ 1) := by
  have hscan : scanCandidates (fun s => s) (fun _ _ => 1) (fun _ => none)
      {} 0 [] 180 [{}, {}] 0 none = some (MatchLink.mk 0 0 1 false) := by
    norm_num [scanCandidates, candidateScore, minutes_between,
      team_pair_similarity, similarity, normalize_team_name, orEmpty]
  have hsc : candidateScore (fun s => s) (fun _ _ => 1) (fun _ => none)
      {} ({} : Row) 180 = some (1, false) := by
    norm_num [candidateScore, minutes_between, team_pair_similarity,
      similarity, normalize_team_name, orEmpty]
  exact (record_linker_tie_break (fun s => s) (fun _ _ => 1) (fun _ => none)
    {} 0 [] 180 [{}, {}] (MatchLink.mk 0 0 1 false) hscan).2.2 1 {} 1 false
    rfl rfl hsc

theorem mem_takeWhile (p : Char → Bool) :
    ∀ (l : List Char) (x : Char), x ∈ l.takeWhile p → x ∈ l ∧ p x = true := by
  intro l
  induction l with
  | nil => intro x h; simp [List.takeWhile] at h
  | cons a rest ih =>
    intro x h
    rw [List.takeWhile_cons] at h
    by_cases hp : p a
    · rw [if_pos hp] at h
      rcases List.mem_cons.mp h with rfl | h'
      · exact ⟨List.mem_cons_self _ _, hp⟩
      · exact ⟨List.mem_cons_of_mem _ (ih x h').1, (ih x h').2⟩
    · rw [if_neg hp] at h
      simp at h

theorem mem_dropWhile (p : Char → Bool) :
    ∀ (l : List Char) (x : Char), x ∈ l.dropWhile p → x ∈ l := by
  intro l
  induction l with
  | nil => intro x h; simp [List.dropWhile] at h
  | cons a rest ih =>
    intro x h
    rw [List.dropWhile_cons] at h
    by_cases hp : p a
    · rw [if_pos hp] at h
      exact List.mem_cons_of_mem _ (ih x h)
    · rw [if_neg hp] at h
      exact h

theorem takeWhile_all (p : Char → Bool) :
    ∀ (l : List Char), (∀ x ∈ l, p x = true) → l.takeWhile p = l := by
  intro l
  induction l with
  | nil => intro _; rfl
  | cons a rest ih =>
    intro h
    rw [List.takeWhile_cons, if_pos (h a (List.mem_cons_self _ _))]
    rw [ih fun x hx => h x (List.mem_cons_of_mem _ hx)]

theorem takeWhile_append_stop (p : Char → Bool) (y : Char)
    (ys : List Char) (hy : p y = false) :
    ∀ (xs : List Char), (∀ x ∈ xs, p x = true) →
      (xs ++ y :: ys).takeWhile p = xs := by
  intro xs
  induction xs with
  | nil =>
    intro _
    rw [List.nil_append, List.takeWhile_cons, if_neg (by simp [hy])]
  | cons a rest ih =>
    intro h
    rw [List.cons_append, List.takeWhile_cons,
      if_pos (h a (List.mem_cons_self _ _))]
    rw [ih fun x hx => h x (List.mem_cons_of_mem _ hx)]

theorem dropWhile_append_stop (p : Char → Bool) (y : Char)
    (ys : List Char) (hy : p y = false) :
    ∀ (xs : List Char), (∀ x ∈ xs, p x = true) →
      (xs ++ y :: ys).dropWhile p = y :: ys := by
  intro xs
  induction xs with
  | nil =>
    intro _
    rw [List.nil_append, List.dropWhile_cons, if_neg (by simp [hy])]
  | cons a rest ih =>
    intro h
    rw [List.cons_append, List.dropWhile_cons,
      if_pos (h a (List.mem_cons_self _ _))]
    exact ih fun x hx => h x (List.mem_cons_of_mem _ hx)

theorem dropWhile_all (p : Char → Bool) :
    ∀ (l : List Char), (∀ x ∈ l, p x = true) → l.dropWhile p = [] := by
  intro l
  induction l with
  | nil => intro _; rfl
  | cons a rest ih =>
    intro h
    rw [List.dropWhile_cons, if_pos (h a (List.mem_cons_self _ _))]
    exact ih fun x hx => h x (List.mem_cons_of_mem _ hx)

theorem squash_chars :
    ∀ (l : List Char) (c : Char), c ∈ squashNonKept l → isKeptChar c = true
  | [], c, h => by simp [squashNonKept] at h
  | a :: rest, c, h => by
    rw [squashNonKept] at h
    by_cases ha : isKeptChar a
    · rw [if_pos ha] at h
      rcases List.mem_cons.mp h with rfl | h'
      · exact ha
      · exact squash_chars rest c h'
    · rw [if_neg ha] at h
      rcases List.mem_cons.mp h with rfl | h'
      · decide
      · exact squash_chars (rest.dropWhile fun d => !isKeptChar d) c h'
termination_by l _ _ => l.length
decreasing_by
  · simp_wf
  · simp_wf
    have h : ∀ (l : List Char), (l.dropWhile (fun d => !isKeptChar d)).length ≤ l.length := by
      intro l
      induction l with
      | nil => simp [List.dropWhile]
      | cons a l ih =>
        simp only [List.dropWhile]
        split
        · exact Nat.le_succ_of_le ih
        · exact Nat.le_refl _
    have h2 := h rest
    omega

theorem squash_of_kept :
    ∀ (l : List Char), (∀ c ∈ l, isKeptChar c = true) → squashNonKept l = l
  | [], _ => by rw [squashNonKept]
  | a :: rest, h => by
    rw [squashNonKept, if_pos (h a (List.mem_cons_self _ _))]
    rw [squash_of_kept rest fun c hc => h c (List.mem_cons_of_mem _ hc)]
termination_by l _ => l.length

theorem splitTokens_sound :
    ∀ (l : List Char) (t : List Char), t ∈ splitTokens l →
      t ≠ [] ∧ ∀ c ∈ t, c ∈ l ∧ c ≠ ' '
  | [], t, h => by simp [splitTokens] at h
  | a :: rest, t, h => by
    rw [splitTokens] at h
    by_cases ha : a == ' '
    · rw [if_pos ha] at h
      have hs := splitTokens_sound rest t h
      exact ⟨hs.1, fun c hc =>
        ⟨List.mem_cons_of_mem _ (hs.2 c hc).1, (hs.2 c hc).2⟩⟩
    · rw [if_neg ha] at h
      rcases List.mem_cons.mp h with rfl | h'
      · refine ⟨by simp, ?_⟩
        intro c hc
        rcases List.mem_cons.mp hc with rfl | hc'
        · exact ⟨List.mem_cons_self _ _, by simpa using ha⟩
        · have ht := mem_takeWhile _ rest c hc'
          exact ⟨List.mem_cons_of_mem _ ht.1, by simpa using ht.2⟩
      · have hs := splitTokens_sound (rest.dropWhile fun d => d != ' ') t h'
        exact ⟨hs.1, fun c hc =>
          ⟨List.mem_cons_of_mem _ (mem_dropWhile _ rest c (hs.2 c hc).1),
            (hs.2 c hc).2⟩⟩
termination_by l _ _ => l.length
decreasing_by
  · simp_wf
  · simp_wf
    have h : ∀ (l : List Char), (l.dropWhile (fun d => d != ' ')).length ≤ l.length := by
      intro l
      induction l with
      | nil => simp [List.dropWhile]
      | cons a l ih =>
        simp only [List.dropWhile]
        split
        · exact Nat.le_succ_of_le ih
        · exact Nat.le_refl _
    have h2 := h rest
    omega

theorem splitTokens_join :
    ∀ (parts : List (List Char)),
      (∀ t ∈ parts, t ≠ [] ∧ ∀ c ∈ t, c ≠ ' ') →
      splitTokens (joinTokens parts) = parts
  | [], _ => by rw [joinTokens, splitTokens]
  | [t], h => by
    obtain ⟨hne, hc⟩ := h t (List.mem_cons_self _ _)
    cases t with
    | nil => exact absurd rfl hne
    | cons c cs =>
      rw [joinTokens, splitTokens]
      have hcne : (c == ' ') = false := by
        simpa using hc c (List.mem_cons_self _ _)
      rw [if_neg (by simp [hcne])]
      have hcs : ∀ x ∈ cs, (x != ' ') = true := fun x hx => by
        simpa using hc x (List.mem_cons_of_mem _ hx)
      rw [takeWhile_all _ cs hcs]
      rw [dropWhile_all _ cs hcs, splitTokens]
  | t :: t' :: parts, h => by
    obtain ⟨hne, hc⟩ := h t (List.mem_cons_self _ _)
    cases t with
    | nil => exact absurd rfl hne
    | cons c cs =>
      have hjt : joinTokens ((c :: cs) :: t' :: parts) =
          (c :: cs) ++ ' ' :: joinTokens (t' :: parts) := rfl
      rw [hjt, List.cons_append, splitTokens]
      have hcne : (c == ' ') = false := by
        simpa using hc c (List.mem_cons_self _ _)
      rw [if_neg (by simp [hcne])]
      have hcs : ∀ x ∈ cs, (x != ' ') = true := fun x hx => by
        simpa using hc x (List.mem_cons_of_mem _ hx)
      rw [takeWhile_append_stop _ ' ' _ (by simp) cs hcs]
      rw [dropWhile_append_stop _ ' ' _ (by simp) cs hcs]
      rw [splitTokens, if_pos (by simp)]
      rw [splitTokens_join (t' :: parts)
        fun u hu => h u (List.mem_cons_of_mem _ hu)]

theorem joinTokens_ne_nil :
    ∀ (parts : List (List Char)), parts ≠ [] →
      (∀ t ∈ parts, t ≠ []) → joinTokens parts ≠ []
  | [], hne, _ => absurd rfl hne
  | [t], _, ht => by
    rw [joinTokens]
    exact ht t (List.mem_cons_self _ _)
  | t :: t' :: parts, _, ht => by
    have hjt : joinTokens (t :: t' :: parts) =
        t ++ ' ' :: joinTokens (t' :: parts) := rfl
    rw [hjt]
    have := ht t (List.mem_cons_self _ _)
    cases t with
    | nil => exact absurd rfl this
    | cons c cs => simp

theorem joinTokens_chars :
    ∀ (parts : List (List Char)) (c : Char), c ∈ joinTokens parts →
      c = ' ' ∨ ∃ t ∈ parts, c ∈ t
  | [], c, h => by simp [joinTokens] at h
  | [t], c, h => by
    rw [joinTokens] at h
    exact Or.inr ⟨t, List.mem_cons_self _ _, h⟩
  | t :: t' :: parts, c, h => by
    have hjt : joinTokens (t :: t' :: parts) =
        t ++ ' ' :: joinTokens (t' :: parts) := rfl
    rw [hjt] at h
    rcases List.mem_append.mp h with h1 | h2
    · exact Or.inr ⟨t, List.mem_cons_self _ _, h1⟩
    · rcases List.mem_cons.mp h2 with rfl | h3
      · exact Or.inl rfl
      · rcases joinTokens_chars (t' :: parts) c h3 with h4 | ⟨u, hu, hcu⟩
        · exact Or.inl h4
        · exact Or.inr ⟨u, List.mem_cons_of_mem _ hu, hcu⟩

/-- Every output of `normalize_team_name` is either empty or the
space-join of a nonempty list of nonempty, space-free, kept-character,
non-stop-word tokens. -/
theorem normalize_output (preprocess : String → String)
    (name : Option String) :
    normalize_team_name preprocess name = "" ∨
    ∃ parts : List (List Char), parts ≠ []
      ∧ normalize_team_name preprocess name = String.mk (joinTokens parts)
      ∧ ∀ t ∈ parts, t ≠ []
          ∧ (∀ c ∈ t, isKeptChar c = true ∧ c ≠ ' ')
          ∧ (TEAM_STOP_WORDS.map String.data).contains t = false := by
  cases name with
  | none => exact Or.inl rfl
  | some n =>
    by_cases hn : n = ""
    · refine Or.inl ?_
      simp only [normalize_team_name]
      rw [if_pos hn]
    · simp only [normalize_team_name]
      rw [if_neg hn]
      by_cases hp : (splitTokens (squashNonKept (preprocess n).data)).filter
          (fun t => !t.isEmpty &&
            !(TEAM_STOP_WORDS.map String.data).contains t) = []
      · refine Or.inl ?_
        rw [if_pos hp]
      · refine Or.inr ⟨_, hp, ?_, ?_⟩
        · rw [if_neg hp]
        · intro t ht
          have htf := List.mem_filter.mp ht
          have hsound := splitTokens_sound _ t htf.1
          have hb := htf.2
          simp only [Bool.and_eq_true, Bool.not_eq_true'] at hb
          refine ⟨hsound.1, ?_, hb.2⟩
          intro c hc
          exact ⟨squash_chars _ c (hsound.2 c hc).1, (hsound.2 c hc).2⟩

/-- C8: `normalize_team_name` is idempotent, for any preprocessing stage
(Unicode NFKD + combining-mark removal + lowercasing) that leaves strings of
lowercase-alphanumeric-and-space characters unchanged - a property of the
real NFKD/lower pipeline, since such strings are ASCII-normal and
lowercase. -/
theorem normalize_team_name_idempotent (preprocess : String → String)
    (hpre : ∀ s : String, (∀ c ∈ s.data, isKeptChar c = true) →
      preprocess s = s)
    (name : Option String) :
    normalize_team_name preprocess
        (some (normalize_team_name preprocess name)) =
      normalize_team_name preprocess name := by
  rcases normalize_output preprocess name with h | ⟨parts, hne, heq, hprop⟩
  · rw [h]
    simp only [normalize_team_name]
    simp
  · rw [heq]
    have htne : ∀ t ∈ parts, t ≠ [] := fun t ht => (hprop t ht).1
    have hjoin_ne : joinTokens parts ≠ [] := joinTokens_ne_nil parts hne htne
    have hsne : String.mk (joinTokens parts) ≠ "" := by
      intro hcon
      apply hjoin_ne
      have h2 : (String.mk (joinTokens parts)).data = ("" : String).data := by
        rw [hcon]
      simpa using h2
    have hkept : ∀ c ∈ joinTokens parts, isKeptChar c = true := by
      intro c hc
      rcases joinTokens_chars parts c hc with rfl | ⟨t, ht, hct⟩
      · decide
      · exact ((hprop t ht).2.1 c hct).1
    have hchars : ∀ c ∈ (String.mk (joinTokens parts)).data,
        isKeptChar c = true := fun c hc => hkept c hc
    simp only [normalize_team_name]
    rw [if_neg hsne]
    rw [hpre _ hchars]
    have hdata : (String.mk (joinTokens parts)).data = joinTokens parts := rfl
    rw [hdata, squash_of_kept _ hkept,
      splitTokens_join parts (fun t ht => ⟨(hprop t ht).1,
        fun c hc => ((hprop t ht).2.1 c hc).2⟩)]
    have hfilter : parts.filter (fun t => !t.isEmpty &&
        !(TEAM_STOP_WORDS.map String.data).contains t) = parts := by
      apply List.filter_eq_self.mpr
      intro t ht
      have h2 := (hprop t ht).2.2
      cases t with
      | nil => exact absurd rfl (hprop _ ht).1
      | cons c cs =>
        simp
        simpa using h2
    rw [hfilter, if_neg hne]

/-- C8 witness: idempotence at a concrete name, with the identity
preprocessing (which fixes kept-character strings by `rfl`). -/
theorem normalize_team_name_idempotent_witness :
    normalize_team_name (fun s => s)
        (some (normalize_team_name (fun s => s) (some "fc real"))) =
      normalize_team_name (fun s => s) (some "fc real") :=
  normalize_team_name_idempotent (fun s => s) (fun _ _ => rfl)
    (some "fc real")

/-- The status of every slot of the merged list just before sorting: exactly
`statusAfter` of the slot's seed status and the statuses linked to that slot
by the pipeline's own espn and sofascore link lists; the streamed stage and
the seed loops contribute no status change. -/
theorem mergeStage5_status (preprocess : String → String)
    (ratioFn : String → String → ℚ) (parseIso : Option String → Option ℚ)
    (goal_rows espn_rows streamed_rows sofa_rows : List Row) (i : Nat)
    (hi : i < (mergeStage5 preprocess ratioFn parseIso goal_rows espn_rows
      streamed_rows sofa_rows).length) :
    ((mergeStage5 preprocess ratioFn parseIso goal_rows espn_rows
        streamed_rows sofa_rows).getD i default).status =
      statusAfter
        (pipelineSeedStatus preprocess ratioFn parseIso goal_rows espn_rows
          sofa_rows i)
        (pipelineContribs preprocess ratioFn parseIso goal_rows espn_rows
          sofa_rows i) := by
  have hlen1 : (mergeStage1 preprocess ratioFn parseIso goal_rows
      espn_rows).length = goal_rows.length := by
    rw [mergeStage1, foldLinks_length, mergeStage0, List.length_map]
  have hlen3 : (mergeStage3 preprocess ratioFn parseIso goal_rows espn_rows
      sofa_rows).length = (mergeStage2 preprocess ratioFn parseIso goal_rows
      espn_rows).length := by
    rw [mergeStage3, foldLinks_length]
  have hlen5 : (mergeStage5 preprocess ratioFn parseIso goal_rows espn_rows
      streamed_rows sofa_rows).length = (mergeStage4 preprocess ratioFn
      parseIso goal_rows espn_rows sofa_rows).length := by
    rw [mergeStage5, foldLinks_length]
  have h5 : ((mergeStage5 preprocess ratioFn parseIso goal_rows espn_rows
      streamed_rows sofa_rows).getD i default).status =
      ((mergeStage4 preprocess ratioFn parseIso goal_rows espn_rows
        sofa_rows).getD i default).status := by
    rw [mergeStage5, foldStream_status]
  rw [h5]
  by_cases h2 : i < (mergeStage2 preprocess ratioFn parseIso goal_rows
      espn_rows).length
  · have h4 : (mergeStage4 preprocess ratioFn parseIso goal_rows espn_rows
        sofa_rows).getD i default =
        (mergeStage3 preprocess ratioFn parseIso goal_rows espn_rows
          sofa_rows).getD i default := by
      rw [mergeStage4, List.getD_append _ _ _ _ (by rw [hlen3]; exact h2)]
    rw [h4]
    have h3 : ((mergeStage3 preprocess ratioFn parseIso goal_rows espn_rows
        sofa_rows).getD i default).status =
        statusAfter
          (((mergeStage2 preprocess ratioFn parseIso goal_rows
            espn_rows).getD i default).status)
          (linkedStatuses sofa_rows (mergedSofaLinks preprocess ratioFn
            parseIso goal_rows espn_rows sofa_rows) i) := by
      rw [mergeStage3]
      exact foldLinks_status _ _
        (fun l r c => applySofaLink_status parseIso l r c) _ _ i h2
    rw [h3]
    by_cases hg : i < goal_rows.length
    · have h2get : (mergeStage2 preprocess ratioFn parseIso goal_rows
          espn_rows).getD i default =
          (mergeStage1 preprocess ratioFn parseIso goal_rows espn_rows).getD
            i default := by
        rw [mergeStage2, List.getD_append _ _ _ _ (by rw [hlen1]; exact hg)]
      have h1 : ((mergeStage1 preprocess ratioFn parseIso goal_rows
          espn_rows).getD i default).status =
          statusAfter (((mergeStage0 goal_rows).getD i default).status)
            (linkedStatuses espn_rows (goalEspnLinks preprocess ratioFn
              parseIso goal_rows espn_rows) i) := by
        rw [mergeStage1]
        exact foldLinks_status _ _
          (fun l r c => applyEspnLink_status parseIso l r c) _ _ i
          (by rw [mergeStage0, List.length_map]; exact hg)
      rw [h2get, h1, mergeStage0_status goal_rows i hg,
        statusAfter_append _ _ _ (linkedStatuses_ne_empty _ _ _)]
      simp only [pipelineSeedStatus, pipelineContribs, if_pos hg, if_pos h2]
    · have h2get : (mergeStage2 preprocess ratioFn parseIso goal_rows
          espn_rows).getD i default =
          (unlinkedSeeds "espn" (68 / 100) espn_rows
            ((goalEspnLinks preprocess ratioFn parseIso goal_rows
              espn_rows).map MatchLink.candidate_index)).getD
            (i - goal_rows.length) default := by
        rw [mergeStage2, List.getD_append_right _ _ _ _ (by omega), hlen1]
      rw [h2get]
      simp only [pipelineSeedStatus, pipelineContribs, if_neg hg, if_pos h2,
        List.nil_append]
  · have hg : ¬ i < goal_rows.length := by
      have : goal_rows.length ≤ (mergeStage2 preprocess ratioFn parseIso
          goal_rows espn_rows).length := by
        rw [mergeStage2, List.length_append, hlen1]
        omega
      omega
    have h4 : (mergeStage4 preprocess ratioFn parseIso goal_rows espn_rows
        sofa_rows).getD i default =
        (unlinkedSeeds "sofascore" (74 / 100) sofa_rows
          ((mergedSofaLinks preprocess ratioFn parseIso goal_rows espn_rows
            sofa_rows).map MatchLink.candidate_index)).getD
          (i - (mergeStage2 preprocess ratioFn parseIso goal_rows
            espn_rows).length) default := by
      rw [mergeStage4, List.getD_append_right _ _ _ _ (by omega), hlen3]
    rw [h4]
    simp only [pipelineSeedStatus, pipelineContribs, if_neg hg, if_neg h2,
      List.nil_append]
    rfl

/-- C3: every canonical row produced by `merge_provider_matches` is a slot
of the pre-sort merged list whose status is exactly `statusAfter` of its
seed status (its own source row's status) and the statuses observed from the
source rows its own espn and sofascore links contributed, in pipeline order;
each observed status comes from an actual espn/sofascore input row, every
non-goal seed status comes from an actual espn/sofascore input row, and when
at least one status was observed the row's status is the first
maximal-priority element of the observed sequence (seed status first), i.e.
the highest-priority status with equal-priority comparisons keeping the
existing, earlier value. -/
theorem merged_status_highest_priority (preprocess : String → String)
    (ratioFn : String → String → ℚ) (parseIso : Option String → Option ℚ)
    (goal_rows espn_rows streamed_rows sofa_rows : List Row) :
    ∀ r ∈ merge_provider_matches preprocess ratioFn parseIso goal_rows
        espn_rows streamed_rows sofa_rows,
      ∃ i, i < (mergeStage5 preprocess ratioFn parseIso goal_rows espn_rows
          streamed_rows sofa_rows).length
        ∧ r = (mergeStage5 preprocess ratioFn parseIso goal_rows espn_rows
            streamed_rows sofa_rows).getD i default
        ∧ r.status = statusAfter
            (pipelineSeedStatus preprocess ratioFn parseIso goal_rows
              espn_rows sofa_rows i)
            (pipelineContribs preprocess ratioFn parseIso goal_rows
              espn_rows sofa_rows i)
        ∧ (∀ c ∈ pipelineContribs preprocess ratioFn parseIso goal_rows
              espn_rows sofa_rows i,
            ∃ row, (row ∈ espn_rows ∨ row ∈ sofa_rows) ∧
              c = orUnknown row.status)
        ∧ (goal_rows.length ≤ i →
            ∃ row, (row ∈ espn_rows ∨ row ∈ sofa_rows) ∧
              pipelineSeedStatus preprocess ratioFn parseIso goal_rows
                espn_rows sofa_rows i = row.status)
        ∧ (pipelineContribs preprocess ratioFn parseIso goal_rows espn_rows
              sofa_rows i ≠ [] →
            r.status = some ((pipelineContribs preprocess ratioFn parseIso
                goal_rows espn_rows sofa_rows i).foldl _preferred_status
              (orUnknown (pipelineSeedStatus preprocess ratioFn parseIso
                goal_rows espn_rows sofa_rows i)))
            ∧ ∃ pre post,
              orUnknown (pipelineSeedStatus preprocess ratioFn parseIso
                  goal_rows espn_rows sofa_rows i) ::
                pipelineContribs preprocess ratioFn parseIso goal_rows
                  espn_rows sofa_rows i =
                pre ++ ((pipelineContribs preprocess ratioFn parseIso
                  goal_rows espn_rows sofa_rows i).foldl _preferred_status
                  (orUnknown (pipelineSeedStatus preprocess ratioFn parseIso
                    goal_rows espn_rows sofa_rows i))) :: post
              ∧ (∀ t ∈ pre, statusPriority t < statusPriority
                  ((pipelineContribs preprocess ratioFn parseIso goal_rows
                    espn_rows sofa_rows i).foldl _preferred_status
                    (orUnknown (pipelineSeedStatus preprocess ratioFn
                      parseIso goal_rows espn_rows sofa_rows i))))
              ∧ (∀ t ∈ post, statusPriority t ≤ statusPriority
                  ((pipelineContribs preprocess ratioFn parseIso goal_rows
                    espn_rows sofa_rows i).foldl _preferred_status
                    (orUnknown (pipelineSeedStatus preprocess ratioFn
                      parseIso goal_rows espn_rows sofa_rows i))))) := by
  intro r hr
  have hr5 : r ∈ mergeStage5 preprocess ratioFn parseIso goal_rows espn_rows
      streamed_rows sofa_rows := by
    rw [merge_provider_matches] at hr
    exact (List.mergeSort_perm _ _).mem_iff.mp hr
  obtain ⟨i, hi, hgeti⟩ := List.mem_iff_getElem.mp hr5
  have hgetd : (mergeStage5 preprocess ratioFn parseIso goal_rows espn_rows
      streamed_rows sofa_rows).getD i default = r := by
    rw [List.getD_eq_getElem _ _ hi]
    exact hgeti
  have hlen1 : (mergeStage1 preprocess ratioFn parseIso goal_rows
      espn_rows).length = goal_rows.length := by
    rw [mergeStage1, foldLinks_length, mergeStage0, List.length_map]
  have hlen3 : (mergeStage3 preprocess ratioFn parseIso goal_rows espn_rows
      sofa_rows).length = (mergeStage2 preprocess ratioFn parseIso goal_rows
      espn_rows).length := by
    rw [mergeStage3, foldLinks_length]
  have hlen5 : (mergeStage5 preprocess ratioFn parseIso goal_rows espn_rows
      streamed_rows sofa_rows).length = (mergeStage4 preprocess ratioFn
      parseIso goal_rows espn_rows sofa_rows).length := by
    rw [mergeStage5, foldLinks_length]
  have hlen2 : (mergeStage2 preprocess ratioFn parseIso goal_rows
      espn_rows).length = goal_rows.length +
      (unlinkedSeeds "espn" (68 / 100) espn_rows
        ((goalEspnLinks preprocess ratioFn parseIso goal_rows espn_rows).map
          MatchLink.candidate_index)).length := by
    rw [mergeStage2, List.length_append, hlen1]
  have hlen4 : (mergeStage4 preprocess ratioFn parseIso goal_rows espn_rows
      sofa_rows).length = (mergeStage2 preprocess ratioFn parseIso goal_rows
      espn_rows).length +
      (unlinkedSeeds "sofascore" (74 / 100) sofa_rows
        ((mergedSofaLinks preprocess ratioFn parseIso goal_rows espn_rows
          sofa_rows).map MatchLink.candidate_index)).length := by
    rw [mergeStage4, List.length_append, hlen3]
  have hstat : r.status = statusAfter
      (pipelineSeedStatus preprocess ratioFn parseIso goal_rows espn_rows
        sofa_rows i)
      (pipelineContribs preprocess ratioFn parseIso goal_rows espn_rows
        sofa_rows i) := by
    rw [← hgetd]
    exact mergeStage5_status preprocess ratioFn parseIso goal_rows espn_rows
      streamed_rows sofa_rows i hi
  have hbe : ∀ l ∈ goalEspnLinks preprocess ratioFn parseIso goal_rows
      espn_rows, l.candidate_index < espn_rows.length := by
    intro l hl
    rw [goalEspnLinks, _match_records] at hl
    exact matchRecords_candidate_lt preprocess ratioFn parseIso espn_rows
      180 (76 / 100) (mergeStage0 goal_rows) 0 [] l hl
  have hbs : ∀ l ∈ mergedSofaLinks preprocess ratioFn parseIso goal_rows
      espn_rows sofa_rows, l.candidate_index < sofa_rows.length := by
    intro l hl
    rw [mergedSofaLinks, _match_records] at hl
    exact matchRecords_candidate_lt preprocess ratioFn parseIso sofa_rows
      180 (78 / 100) (mergeStage2 preprocess ratioFn parseIso goal_rows
        espn_rows) 0 [] l hl
  refine ⟨i, hi, hgetd.symm, hstat, ?_, ?_, ?_⟩
  · intro c hc
    simp only [pipelineContribs] at hc
    rcases List.mem_append.mp hc with h | h
    · by_cases hg : i < goal_rows.length
      · rw [if_pos hg] at h
        obtain ⟨l, hl, rfl⟩ := List.mem_map.mp h
        have hlm := List.mem_of_mem_filter hl
        have hlt := hbe l hlm
        refine ⟨espn_rows.getD l.candidate_index default, Or.inl ?_, rfl⟩
        rw [List.getD_eq_getElem _ _ hlt]
        exact List.mem_iff_getElem.mpr ⟨_, hlt, rfl⟩
      · rw [if_neg hg] at h
        simp at h
    · by_cases h2 : i < (mergeStage2 preprocess ratioFn parseIso goal_rows
          espn_rows).length
      · rw [if_pos h2] at h
        obtain ⟨l, hl, rfl⟩ := List.mem_map.mp h
        have hlm := List.mem_of_mem_filter hl
        have hlt := hbs l hlm
        refine ⟨sofa_rows.getD l.candidate_index default, Or.inr ?_, rfl⟩
        rw [List.getD_eq_getElem _ _ hlt]
        exact List.mem_iff_getElem.mpr ⟨_, hlt, rfl⟩
      · rw [if_neg h2] at h
        simp at h
  · intro hgi
    have hg : ¬ i < goal_rows.length := by omega
    simp only [pipelineSeedStatus, if_neg hg]
    by_cases h2 : i < (mergeStage2 preprocess ratioFn parseIso goal_rows
        espn_rows).length
    · rw [if_pos h2]
      have hj : i - goal_rows.length < (unlinkedSeeds "espn" (68 / 100)
          espn_rows ((goalEspnLinks preprocess ratioFn parseIso goal_rows
            espn_rows).map MatchLink.candidate_index)).length := by
        omega
      have hmem : (unlinkedSeeds "espn" (68 / 100) espn_rows
          ((goalEspnLinks preprocess ratioFn parseIso goal_rows
            espn_rows).map MatchLink.candidate_index)).getD
          (i - goal_rows.length) default ∈ unlinkedSeeds "espn" (68 / 100)
          espn_rows ((goalEspnLinks preprocess ratioFn parseIso goal_rows
            espn_rows).map MatchLink.candidate_index) := by
        rw [List.getD_eq_getElem _ _ hj]
        exact List.mem_iff_getElem.mpr ⟨_, hj, rfl⟩
      obtain ⟨row, hrow, heq⟩ := unlinkedSeeds_mem _ _ _ _ _ hmem
      refine ⟨row, Or.inl hrow, ?_⟩
      rw [heq]
      rfl
    · rw [if_neg h2]
      have hj : i - (mergeStage2 preprocess ratioFn parseIso goal_rows
          espn_rows).length < (unlinkedSeeds "sofascore" (74 / 100)
          sofa_rows ((mergedSofaLinks preprocess ratioFn parseIso goal_rows
            espn_rows sofa_rows).map MatchLink.candidate_index)).length := by
        omega
      have hmem : (unlinkedSeeds "sofascore" (74 / 100) sofa_rows
          ((mergedSofaLinks preprocess ratioFn parseIso goal_rows espn_rows
            sofa_rows).map MatchLink.candidate_index)).getD
          (i - (mergeStage2 preprocess ratioFn parseIso goal_rows
            espn_rows).length) default ∈ unlinkedSeeds "sofascore" (74 / 100)
          sofa_rows ((mergedSofaLinks preprocess ratioFn parseIso goal_rows
            espn_rows sofa_rows).map MatchLink.candidate_index) := by
        rw [List.getD_eq_getElem _ _ hj]
        exact List.mem_iff_getElem.mpr ⟨_, hj, rfl⟩
      obtain ⟨row, hrow, heq⟩ := unlinkedSeeds_mem _ _ _ _ _ hmem
      refine ⟨row, Or.inr hrow, ?_⟩
      rw [heq]
      rfl
  · intro hne
    constructor
    · rw [hstat]
      cases hcs : pipelineContribs preprocess ratioFn parseIso goal_rows
          espn_rows sofa_rows i with
      | nil => exact absurd hcs hne
      | cons a l => rfl
    · exact foldl_preferred_first_max
        (orUnknown (pipelineSeedStatus preprocess ratioFn parseIso goal_rows
          espn_rows sofa_rows i))
        (pipelineContribs preprocess ratioFn parseIso goal_rows espn_rows
          sofa_rows i)

theorem merged_status_highest_priority_witness :
    seedRow "goal" (72 / 100) liveGoalRow ∈
      merge_provider_matches id (fun _ _ => (0 : ℚ))
        (fun _ => (none : Option ℚ)) [liveGoalRow] [] [] []
    ∧ ∃ i, i < (mergeStage5 id (fun _ _ => (0 : ℚ))
          (fun _ => (none : Option ℚ)) [liveGoalRow] [] [] []).length
        ∧ seedRow "goal" (72 / 100) liveGoalRow =
            (mergeStage5 id (fun _ _ => (0 : ℚ))
              (fun _ => (none : Option ℚ)) [liveGoalRow] [] [] []).getD i
              default
        ∧ (seedRow "goal" (72 / 100) liveGoalRow).status = statusAfter
            (pipelineSeedStatus id (fun _ _ => (0 : ℚ))
              (fun _ => (none : Option ℚ)) [liveGoalRow] [] [] i)
            (pipelineContribs id (fun _ _ => (0 : ℚ))
              (fun _ => (none : Option ℚ)) [liveGoalRow] [] [] i)
        ∧ (∀ c ∈ pipelineContribs id (fun _ _ => (0 : ℚ))
              (fun _ => (none : Option ℚ)) [liveGoalRow] [] [] i,
            ∃ row, (row ∈ ([] : List Row) ∨ row ∈ ([] : List Row)) ∧
              c = orUnknown row.status)
        ∧ (([liveGoalRow] : List Row).length ≤ i →
            ∃ row, (row ∈ ([] : List Row) ∨ row ∈ ([] : List Row)) ∧
              pipelineSeedStatus id (fun _ _ => (0 : ℚ))
                (fun _ => (none : Option ℚ)) [liveGoalRow] [] [] i =
                row.status)
        ∧ (pipelineContribs id (fun _ _ => (0 : ℚ))
              (fun _ => (none : Option ℚ)) [liveGoalRow] [] [] i ≠ [] →
            (seedRow "goal" (72 / 100) liveGoalRow).status =
              some ((pipelineContribs id (fun _ _ => (0 : ℚ))
                  (fun _ => (none : Option ℚ)) [liveGoalRow] [] [] i).foldl
                _preferred_status
                (orUnknown (pipelineSeedStatus id (fun _ _ => (0 : ℚ))
                  (fun _ => (none : Option ℚ)) [liveGoalRow] [] [] i)))
            ∧ ∃ pre post,
              orUnknown (pipelineSeedStatus id (fun _ _ => (0 : ℚ))
                  (fun _ => (none : Option ℚ)) [liveGoalRow] [] [] i) ::
                pipelineContribs id (fun _ _ => (0 : ℚ))
                  (fun _ => (none : Option ℚ)) [liveGoalRow] [] [] i =
                pre ++ ((pipelineContribs id (fun _ _ => (0 : ℚ))
                  (fun _ => (none : Option ℚ)) [liveGoalRow] [] []
                  i).foldl _preferred_status
                  (orUnknown (pipelineSeedStatus id (fun _ _ => (0 : ℚ))
                    (fun _ => (none : Option ℚ)) [liveGoalRow] [] []
                    i))) :: post
              ∧ (∀ t ∈ pre, statusPriority t < statusPriority
                  ((pipelineContribs id (fun _ _ => (0 : ℚ))
                    (fun _ => (none : Option ℚ)) [liveGoalRow] [] []
                    i).foldl _preferred_status
                    (orUnknown (pipelineSeedStatus id (fun _ _ => (0 : ℚ))
                      (fun _ => (none : Option ℚ)) [liveGoalRow] [] []
                      i))))
              ∧ (∀ t ∈ post, statusPriority t ≤ statusPriority
                  ((pipelineContribs id (fun _ _ => (0 : ℚ))
                    (fun _ => (none : Option ℚ)) [liveGoalRow] [] []
                    i).foldl _preferred_status
                    (orUnknown (pipelineSeedStatus id (fun _ _ => (0 : ℚ))
                      (fun _ => (none : Option ℚ)) [liveGoalRow] [] []
                      i))))) := by
  have hmem : seedRow "goal" (72 / 100) liveGoalRow ∈
      merge_provider_matches id (fun _ _ => (0 : ℚ))
        (fun _ => (none : Option ℚ)) [liveGoalRow] [] [] [] := by
    rw [merge_provider_matches]
    refine (List.mergeSort_perm _ _).mem_iff.mpr ?_
    simp [mergeStage5, mergeStage4, mergeStage3, mergeStage2, mergeStage1,
      mergeStage0, streamLinks, mergedSofaLinks, goalEspnLinks,
      _match_records, matchRecordsAux, foldLinks, unlinkedSeeds]
  exact ⟨hmem, merged_status_highest_priority id (fun _ _ => (0 : ℚ))
    (fun _ => (none : Option ℚ)) [liveGoalRow] [] [] []
    (seedRow "goal" (72 / 100) liveGoalRow) hmem⟩
